import Mathlib

/-!
Verification development for the dipa-auto poller (src/dipa_auto.py).

The embedding models the core change-detection-and-fan-out loop:

* Listing payloads are JSON arrays of item objects whose fields are JSON
  primitives (strings, integers, booleans, null), which is the shape the
  remote listing endpoint returns (`name`, `size`, `url`, `mod_time`,
  `mode`, `is_dir`, `is_symlink`).
* `dumpsListing` models Python's `json.dumps(data, sort_keys=True)`:
  object keys are sorted by code-point order, array order is preserved,
  separators are ", " and ": ", strings are escaped with
  `ensure_ascii=True` semantics (including `\uXXXX` escapes and surrogate
  pairs).
* The SHA-256 hex digest is modelled as an abstract function argument
  `h : String → String` applied to the canonical serialization; theorems
  about digest distinctness assume `h` injective (the collision-resistance
  idealization of a cryptographic hash).
* Network effects are oracles: `Response` is what `requests.get` returned
  for the tick (`body = none` models a body that `response.json()` cannot
  parse), `net target url istf` is the status code `requests.post` returns
  for the dispatch POST determined by the target (its repository in the
  endpoint path and its token in the `Authorization` header), the artifact
  URL and the `is_testflight` flag (`none` models a raised
  exception/timeout), and
  `saveOk` tells whether the `save_hashes` file write succeeds (false
  models a raised IO error).
* `check_branch` returns the in-memory `branch_hashes` state, the on-disk
  state, the list of repositories actually POSTed to, the fan-out result
  (when fan-out ran), and the function's boolean return value; exceptions
  caught by the `except` block in `check_branch` surface as `ok = false`.
-/

/-- JSON primitive values, the field values occurring in listing items. -/
inductive Prim where
  | null : Prim
  | bool (b : Bool) : Prim
  | int (n : Int) : Prim
  | str (s : String) : Prim
deriving DecidableEq, Repr

/-- One field of a listing-item object: key and primitive value. -/
abbrev JField := String × Prim

/-- A listing item: a JSON object, fields in source document order. -/
abbrev Item := List JField

/-- A listing payload: a JSON array of item objects. -/
abbrev Listing := List Item

/-- Code-point lexicographic strict comparison on character lists,
matching Python's string `<`. -/
def charListLt : List Char → List Char → Bool
  | [], [] => false
  | [], _ :: _ => true
  | _ :: _, [] => false
  | a :: as, b :: bs =>
    if a.toNat < b.toNat then true
    else if b.toNat < a.toNat then false
    else charListLt as bs

/-- Lowercase hexadecimal digit, as used by Python's `\uXXXX` escapes. -/
def hexDigitChar : Nat → Char
  | 0 => '0' | 1 => '1' | 2 => '2' | 3 => '3' | 4 => '4'
  | 5 => '5' | 6 => '6' | 7 => '7' | 8 => '8' | 9 => '9'
  | 10 => 'a' | 11 => 'b' | 12 => 'c' | 13 => 'd' | 14 => 'e'
  | _ => 'f'

/-- Four lowercase hex digits of a value below 0x10000. -/
def toHex4 (n : Nat) : List Char :=
  [hexDigitChar (n / 4096 % 16), hexDigitChar (n / 256 % 16),
   hexDigitChar (n / 16 % 16), hexDigitChar (n % 16)]

/-- A `\uXXXX` escape unit. -/
def uEscape (n : Nat) : List Char := '\\' :: 'u' :: toHex4 n

/-- Escape of a single character, following Python `json.dumps` with
`ensure_ascii=True`: the seven short escapes, `\uXXXX` for other control
and non-ASCII characters, and surrogate pairs above 0xFFFF. -/
def escapeChar (c : Char) : List Char :=
  if c = '\\' then ['\\', '\\']
  else if c = '"' then ['\\', '"']
  else if c.toNat = 8 then ['\\', 'b']
  else if c.toNat = 12 then ['\\', 'f']
  else if c.toNat = 10 then ['\\', 'n']
  else if c.toNat = 13 then ['\\', 'r']
  else if c.toNat = 9 then ['\\', 't']
  else if c.toNat < 32 then uEscape c.toNat
  else if c.toNat < 127 then [c]
  else if c.toNat < 65536 then uEscape c.toNat
  else uEscape (55296 + (c.toNat - 65536) / 1024) ++
       uEscape (56320 + (c.toNat - 65536) % 1024)

/-- Escape of a character sequence. -/
def escapeList : List Char → List Char
  | [] => []
  | c :: cs => escapeChar c ++ escapeList cs

/-- Decimal rendering of a natural number, most significant digit first,
matching Python's `str`/`json.dumps` for non-negative integers. -/
def natRepr (n : Nat) : List Char :=
  if n = 0 then ['0'] else (Nat.digits 10 n).reverse.map hexDigitChar

/-- Decimal rendering of an integer, matching Python. -/
def intRepr : Int → List Char
  | .ofNat m => natRepr m
  | .negSucc m => '-' :: natRepr (m + 1)

/-- Serialization of a JSON primitive, matching `json.dumps`. -/
def dumpsPrim : Prim → List Char
  | .null => 'n' :: ['u', 'l', 'l']
  | .bool true => 't' :: ['r', 'u', 'e']
  | .bool false => 'f' :: ['a', 'l', 's', 'e']
  | .int n => intRepr n
  | .str s => '"' :: (escapeList s.data ++ ['"'])

/-- Serialization of one object field: `"key": value`. -/
def fieldStr (f : JField) : List Char :=
  '"' :: (escapeList f.1.data ++ ('"' :: ':' :: ' ' :: dumpsPrim f.2))

/-- Remaining fields of an object, each preceded by `", "`. -/
def fieldsSep : Item → List Char
  | [] => []
  | f :: fs => ',' :: ' ' :: (fieldStr f ++ fieldsSep fs)

/-- The fields of an object, `", "`-separated. -/
def fieldsStr : Item → List Char
  | [] => []
  | f :: fs => fieldStr f ++ fieldsSep fs

/-- Serialization of an object with its fields in the given order. -/
def itemStrS (jt : Item) : List Char := '{' :: (fieldsStr jt ++ ['}'])

/-- Remaining items of an array, each preceded by `", "`. -/
def itemsSep : List Item → List Char
  | [] => []
  | j :: js => ',' :: ' ' :: (itemStrS j ++ itemsSep js)

/-- The items of an array, `", "`-separated. -/
def itemsStr : List Item → List Char
  | [] => []
  | j :: js => itemStrS j ++ itemsSep js

/-- Non-strict key comparison used to sort object fields. -/
def fieldLe (f g : JField) : Bool := !(charListLt g.1.data f.1.data)

/-- Ordered insertion of a field by key. -/
def insertField (f : JField) : Item → Item
  | [] => [f]
  | g :: gs => if fieldLe f g then f :: g :: gs else g :: insertField f gs

/-- Sorting of an object's fields by key, modelling `sort_keys=True`. -/
def sortFields : Item → Item
  | [] => []
  | f :: fs => insertField f (sortFields fs)

/-- Canonical serialization of a listing payload as a character list:
`json.dumps(data, sort_keys=True)`. -/
def dumpsListingL (l : Listing) : List Char :=
  '[' :: (itemsStr (l.map sortFields) ++ [']'])

/-- Canonical serialization of a listing payload as a string. -/
def dumpsListing (l : Listing) : String := ⟨dumpsListingL l⟩

/-- The channel fingerprint:
`hashlib.sha256(json.dumps(data, sort_keys=True).encode()).hexdigest()`,
with the SHA-256 hex digest abstracted as `h`. -/
def fingerprint (h : String → String) (l : Listing) : String :=
  h (dumpsListing l)

/-- JField lookup in an item object, modelling Python `dict` access. -/
def getField (it : Item) (k : String) : Option Prim :=
  (it.find? (fun f => f.1 == k)).map (fun f => f.2)

/-- The `mod_time` string of an item (`""` when absent or non-string;
the source raises on such items, which no claim exercises). -/
def modTimeStr (it : Item) : String :=
  match getField it "mod_time" with
  | some (.str s) => s
  | _ => ""

/-- The `name` string of an item. -/
def nameStr (it : Item) : String :=
  match getField it "name" with
  | some (.str s) => s
  | _ => ""

/-- One step of Python's `max(..., key=...)`: keep the current best
unless the candidate's key is strictly greater. -/
def maxStep (best y : Item) : Item :=
  if charListLt (modTimeStr best).data (modTimeStr y).data then y else best

/-- `DipaChecker.get_latest_version`: `None` on an empty listing, else
`max(ipa_list, key=lambda x: x["mod_time"])` (string comparison, first
maximal element wins ties). -/
def get_latest_version : Listing → Option Item
  | [] => none
  | x :: xs => some (xs.foldl maxStep x)

/-- A configured dispatch target. -/
structure Target where
  github_repo : String
  github_token : String
deriving DecidableEq, Repr

/-- The dictionary returned by `dispatch_github_workflow`. -/
structure DispatchResult where
  success : Bool
  successful : List String
  failed : List String
  hash : String
deriving DecidableEq, Repr

/-- Association-list lookup, modelling Python `dict.get`. -/
def lookupAssoc {α : Type} (l : List (String × α)) (k : String) : Option α :=
  (l.find? (fun p => p.1 == k)).map (fun p => p.2)

/-- `dispatches.get(current_hash, [])`. -/
def lookupList (d : List (String × List String)) (k : String) : List String :=
  (lookupAssoc d k).getD []

/-- Association-list update, modelling Python `dict` assignment
(replace an existing key in place, append a new key). -/
def setAssoc {α : Type} : List (String × α) → String → α → List (String × α)
  | [], k, v => [(k, v)]
  | (k', v') :: rest, k, v =>
    if k' == k then (k, v) :: rest else (k', v') :: setAssoc rest k v

/-- One iteration of the fan-out loop over targets, accumulating the
`successful`, `failed` and actually-POSTed repository lists in order. -/
def dispatchStep (net : Target → String → Bool → Option Nat)
    (skip : List String) (ipa_url : String) (istf : Bool)
    (acc : List String × List String × List String) (t : Target) :
    List String × List String × List String :=
  if t.github_repo ∈ skip then
    (acc.1 ++ [t.github_repo], acc.2.1, acc.2.2)
  else if net t ipa_url istf = some 204 then
    (acc.1 ++ [t.github_repo], acc.2.1, acc.2.2 ++ [t.github_repo])
  else
    (acc.1, acc.2.1 ++ [t.github_repo], acc.2.2 ++ [t.github_repo])

/-- `DipaChecker.dispatch_github_workflow`: for each target, skip it as
already-successful when its repository is recorded under `current_hash`,
otherwise POST. The `net` oracle receives everything that determines the
request — the target itself (its repository names the endpoint, its
token fills the `Authorization` header), the artifact URL and the
testflight flag — and yields the response status; HTTP 204 is success,
anything else, including a raised exception (`none`), is failure.
Returns the result dictionary and the list of repositories POSTed to. -/
def dispatch_github_workflow (targets : List Target)
    (net : Target → String → Bool → Option Nat)
    (dispatches : List (String × List String))
    (ipa_url : String) (branch : String) (current_hash : String) :
    DispatchResult × List String :=
  let skip := lookupList dispatches current_hash
  let acc := targets.foldl (dispatchStep net skip ipa_url (branch == "testflight")) ([], [], [])
  (⟨acc.2.1.isEmpty, acc.1, acc.2.1, current_hash⟩, acc.2.2)

/-- A per-channel entry of the persisted state file. `legacy` is the old
on-disk shape where the entry is a plain hash string; `entry` is the
current shape `{"hash": ..., "dispatches": {...}}` (a dict missing either
key behaves like `none` / `[]`, which the source recovers via `.get`
defaults and re-initialization). -/
inductive BranchEntry where
  | legacy (s : String) : BranchEntry
  | entry (hash : Option String) (dispatches : List (String × List String)) : BranchEntry
deriving DecidableEq, Repr

/-- The in-memory `branch_hashes` dictionary. -/
abbrev DState := List (String × BranchEntry)

/-- The HTTP response obtained for a listing fetch. `body = none` models
a body `response.json()` cannot parse (which raises); note the source
never examines `status`. -/
structure Response where
  status : Nat
  body : Option Listing
deriving DecidableEq, Repr

/-- Truthiness of the `mock_hash` argument (`if self.mock_hash:`). -/
def mockActive : Option String → Bool
  | none => false
  | some s => !(s == "")

/-- `DipaChecker.fetch_ipa_list`: parse the response body (any raised
parse error is `none`), then return the payload together with either the
mock fingerprint (stable channel only, when a truthy mock is set) or the
canonical digest of the payload. The HTTP status code is never
inspected. -/
def fetch_ipa_list (mock : Option String) (branch : String)
    (resp : Response) (h : String → String) : Option (Listing × String) :=
  match resp.body with
  | none => none
  | some data =>
    if mockActive mock && (branch == "stable") then
      some (data, (mock.getD ""))
    else
      some (data, fingerprint h data)

/-- `DipaChecker.load_hashes`: read the state file when it exists
(replacing the stable entry when a truthy mock is set), else initialize
both channels empty. -/
def load_hashes (mock : Option String) (file : Option DState) : DState :=
  match file with
  | some st =>
    if mockActive mock then
      setAssoc st "stable" (.entry (some (mock.getD "")) []) else st
  | none =>
    [("stable", .entry none []), ("testflight", .entry none [])]

/-- `if branch not in self.branch_hashes: ... = {"hash": None, "dispatches": {}}`. -/
def ensureBranch (st : DState) (branch : String) : DState :=
  match lookupAssoc st branch with
  | none => setAssoc st branch (.entry none [])
  | some _ => st

/-- The merge `dispatches[current_hash] = list(set(old + successful))`
(set order modelled as first-occurrence deduplication; only membership
is ever relied upon). -/
def updateDisp (d : List (String × List String)) (hsh : String)
    (succ : List String) : List (String × List String) :=
  setAssoc d hsh (lookupList d hsh ++ succ).dedup

/-- The artifact URL `f"{self.base_url}/{branch}/{latest_version['name']}"`. -/
def mkUrl (base_url branch : String) (it : Item) : String :=
  base_url ++ "/" ++ branch ++ "/" ++ nameStr it

/-- Everything observable about one `check_branch` call: the in-memory
state afterwards, the on-disk state afterwards, the repositories POSTed
to, the fan-out result if fan-out ran, and the boolean return value. -/
structure CheckOut where
  mem : DState
  disk : DState
  calls : List String
  result : Option DispatchResult
  ok : Bool
deriving DecidableEq, Repr

/-- `DipaChecker.check_branch` for one channel. Raised exceptions that
the enclosing `try/except` catches (unparsable body; `AttributeError`
from `.get` on a legacy plain-string entry; a failed `save_hashes`
write) surface as `ok = false`; state mutations made before the raise
are kept, exactly as in the source. -/
def check_branch (targets : List Target) (base_url : String)
    (mock : Option String) (branch : String) (resp : Response)
    (net : Target → String → Bool → Option Nat) (saveOk : Bool)
    (h : String → String) (mem disk : DState) : CheckOut :=
  match fetch_ipa_list mock branch resp h with
  | none => ⟨mem, disk, [], none, false⟩
  | some (ipa_list, current_hash) =>
    let mem1 := ensureBranch mem branch
    match lookupAssoc mem1 branch with
    | none => ⟨mem1, disk, [], none, false⟩
    | some (.legacy _) => ⟨mem1, disk, [], none, false⟩
    | some (.entry stored disp) =>
      if stored = some current_hash then ⟨mem1, disk, [], none, true⟩
      else
        match get_latest_version ipa_list with
        | none => ⟨mem1, disk, [], none, true⟩
        | some latest =>
          let url := mkUrl base_url branch latest
          let rc := dispatch_github_workflow targets net disp url branch current_hash
          if rc.1.successful.isEmpty then
            ⟨mem1, disk, rc.2, some rc.1, true⟩
          else
            let mem2 := setAssoc mem1 branch
              (.entry (some current_hash) (updateDisp disp current_hash rc.1.successful))
            if saveOk then ⟨mem2, mem2, rc.2, some rc.1, true⟩
            else ⟨mem2, disk, rc.2, some rc.1, false⟩

/-- One iteration of `DipaChecker.run`: check the stable channel, then
the testflight channel, threading the in-memory and on-disk state; the
boolean results are ignored, so a failed stable tick never stops the
testflight tick. -/
def run_once (targets : List Target) (base_url : String)
    (mock : Option String) (respS respT : Response)
    (net : Target → String → Bool → Option Nat) (saveOkS saveOkT : Bool)
    (h : String → String) (mem disk : DState) : CheckOut × CheckOut :=
  let o1 := check_branch targets base_url mock "stable" respS net saveOkS h mem disk
  let o2 := check_branch targets base_url mock "testflight" respT net saveOkT h o1.mem o1.disk
  (o1, o2)

/-- A character-list continuation that does not start with a decimal
digit; what follows a serialized value inside a JSON document (`,`, `]`,
`}`, or the end). -/
def Delim : List Char → Prop
  | [] => True
  | c :: _ => c.isDigit = false

/-- A listing payload whose item objects have pairwise-distinct keys, as
is the case for any object parsed from JSON by Python. -/
def GoodListing (l : Listing) : Prop := ∀ it ∈ l, (it.map Prod.fst).Nodup

/-- Whether an item carries a string `mod_time` field. -/
def hasStrTime (it : Item) : Bool :=
  match getField it "mod_time" with
  | some (.str _) => true
  | _ => false

/-- A listing whose items all carry a string `mod_time` field, as the
listing endpoint guarantees (the source raises otherwise). -/
def GoodTimes (l : Listing) : Prop := ∀ it ∈ l, hasStrTime it = true

/-- Read exactly `k` decimal digits into an accumulator.
Modelled from the spec: part of the ISO-8601 timestamp interpretation
("compared as points in time") that the source does not implement. -/
def readNatAux : Nat → Nat → List Char → Option (Nat × List Char)
  | 0, acc, cs => some (acc, cs)
  | _ + 1, _, [] => none
  | k + 1, acc, c :: cs =>
    if c.isDigit then readNatAux k (acc * 10 + (c.toNat - 48)) cs else none

/-- Expect one specific character.
Modelled from the spec: part of the ISO-8601 timestamp interpretation. -/
def expectChar (c : Char) : List Char → Option (List Char)
  | [] => none
  | d :: cs => if d = c then some cs else none

/-- Nanoseconds denoted by a fractional-seconds digit run (truncated or
zero-padded to nine digits).
Modelled from the spec: part of the ISO-8601 timestamp interpretation. -/
def fracNanos (ds : List Char) : Nat :=
  ((ds.take 9).foldl (fun acc c => acc * 10 + (c.toNat - 48)) 0) *
    10 ^ (9 - min 9 ds.length)

/-- Days from 1970-01-01 to the given Gregorian civil date (standard
civil-calendar day-count algorithm).
Modelled from the spec: part of the ISO-8601 timestamp interpretation. -/
def daysFromCivil (y : Int) (m d : Nat) : Int :=
  let yAdj : Int := if m ≤ 2 then y - 1 else y
  let era : Int := (if 0 ≤ yAdj then yAdj else yAdj - 399) / 400
  let yoe : Int := yAdj - era * 400
  let mp : Nat := (m + 9) % 12
  let doy : Int := ((153 * mp + 2) / 5 : Nat) + d - 1
  let doe : Int := yoe * 365 + yoe / 4 - yoe / 100 + doy
  era * 146097 + doe - 719468

/-- The instant denoted by an ISO-8601 timestamp
`YYYY-MM-DDTHH:MM:SS[.frac](Z|+HH:MM|-HH:MM)`, in nanoseconds since the
Unix epoch; `none` when the string is not of that shape.
Modelled from the spec: the chronological "points in time" reading of
`modificationTime` that §4.2 prescribes, which the source does not
implement (it compares the raw strings). -/
def chronoNanos (s : String) : Option Int :=
  match readNatAux 4 0 s.data with
  | none => none
  | some (y, r1) =>
  match expectChar '-' r1 with
  | none => none
  | some r2 =>
  match readNatAux 2 0 r2 with
  | none => none
  | some (mo, r3) =>
  match expectChar '-' r3 with
  | none => none
  | some r4 =>
  match readNatAux 2 0 r4 with
  | none => none
  | some (d, r5) =>
  match expectChar 'T' r5 with
  | none => none
  | some r6 =>
  match readNatAux 2 0 r6 with
  | none => none
  | some (hh, r7) =>
  match expectChar ':' r7 with
  | none => none
  | some r8 =>
  match readNatAux 2 0 r8 with
  | none => none
  | some (mi, r9) =>
  match expectChar ':' r9 with
  | none => none
  | some r10 =>
  match readNatAux 2 0 r10 with
  | none => none
  | some (ss, r11) =>
  let fr :=
    match r11 with
    | '.' :: rest =>
      let ds := rest.takeWhile Char.isDigit
      if ds = [] then none else some (fracNanos ds, rest.dropWhile Char.isDigit)
    | _ => some (0, r11)
  match fr with
  | none => none
  | some (ns, r12) =>
  let base : Int := daysFromCivil y mo d * 86400 + (hh * 3600 + mi * 60 + ss : Nat)
  match r12 with
  | ['Z'] => some (base * 1000000000 + ns)
  | sgn :: rest =>
    match readNatAux 2 0 rest with
    | none => none
    | some (oh, r13) =>
    match expectChar ':' r13 with
    | none => none
    | some r14 =>
    match readNatAux 2 0 r14 with
    | none => none
    | some (om, r15) =>
      if r15 ≠ [] then none
      else if sgn = '+' then some ((base - (oh * 3600 + om * 60 : Nat)) * 1000000000 + ns)
      else if sgn = '-' then some ((base + (oh * 3600 + om * 60 : Nat)) * 1000000000 + ns)
      else none
  | [] => none

/-- Strict chronological order on ISO-8601 timestamp strings.
Modelled from the spec: "the ISO-8601 timestamps are compared as points
in time" (§4.2); `false` when either side does not parse. -/
def specChronoLt (a b : String) : Bool :=
  match chronoNanos a, chronoNanos b with
  | some va, some vb => va < vb
  | _, _ => false

/-- The ascending-key relation a sorted field list is `Pairwise` in. -/
def KeyLeR (f g : JField) : Prop := charListLt g.1.data f.1.data = false

/-- The seven short escapes of `json.dumps`: the relation between an
escaped character's code and the letter following the backslash. -/
def simpleEsc (n : Nat) (d : Char) : Prop :=
  (n = 92 ∧ d = '\\') ∨ (n = 34 ∧ d = '"') ∨ (n = 8 ∧ d = 'b') ∨
  (n = 12 ∧ d = 'f') ∨ (n = 10 ∧ d = 'n') ∨ (n = 13 ∧ d = 'r') ∨
  (n = 9 ∧ d = 't')

/-! ### Basic facts about characters, strings and the key order -/

theorem char_toNat_inj {a b : Char} (h : a.toNat = b.toNat) : a = b := by
  have h2 := congrArg Char.ofNat h
  rwa [Char.ofNat_toNat, Char.ofNat_toNat] at h2

theorem char_valid_nat (c : Char) :
    c.toNat < 55296 ∨ (57343 < c.toNat ∧ c.toNat < 1114112) := by
  have h := c.valid
  unfold UInt32.isValidChar Nat.isValidChar at h
  exact h

theorem string_data_inj {s t : String} (h : s.data = t.data) : s = t := by
  cases s; cases t; exact congrArg String.mk h

theorem charListLt_irrefl (l : List Char) : charListLt l l = false := by
  induction l with
  | nil => rfl
  | cons a as ih => simp [charListLt, ih]

theorem charListLt_trans : ∀ {a b c : List Char},
    charListLt a b = true → charListLt b c = true → charListLt a c = true := by
  intro a
  induction a with
  | nil =>
    intro b c hab hbc
    cases b with
    | nil => simpa [charListLt] using hab
    | cons y ys =>
      cases c with
      | nil => simpa [charListLt] using hbc
      | cons z zs => simp [charListLt]
  | cons x xs ih =>
    intro b c hab hbc
    cases b with
    | nil => simp [charListLt] at hab
    | cons y ys =>
      cases c with
      | nil => simp [charListLt] at hbc
      | cons z zs =>
        simp only [charListLt] at hab hbc ⊢
        by_cases h1 : x.toNat < y.toNat
        · by_cases h3 : y.toNat < z.toNat
          · rw [if_pos (by omega)]
          · by_cases h4 : z.toNat < y.toNat
            · rw [if_neg h3, if_pos h4] at hbc
              exact absurd hbc (by decide)
            · rw [if_pos (by omega)]
        · by_cases h2 : y.toNat < x.toNat
          · rw [if_neg h1, if_pos h2] at hab
            exact absurd hab (by decide)
          · rw [if_neg h1, if_neg h2] at hab
            by_cases h3 : y.toNat < z.toNat
            · rw [if_pos (by omega)]
            · by_cases h4 : z.toNat < y.toNat
              · rw [if_neg h3, if_pos h4] at hbc
                exact absurd hbc (by decide)
              · rw [if_neg h3, if_neg h4] at hbc
                rw [if_neg (by omega), if_neg (by omega)]
                exact ih hab hbc

theorem charListLt_eq_of_ff : ∀ {a b : List Char},
    charListLt a b = false → charListLt b a = false → a = b := by
  intro a
  induction a with
  | nil =>
    intro b hab _
    cases b with
    | nil => rfl
    | cons y ys => simp [charListLt] at hab
  | cons x xs ih =>
    intro b hab hba
    cases b with
    | nil => simp [charListLt] at hba
    | cons y ys =>
      simp only [charListLt] at hab hba
      by_cases h1 : x.toNat < y.toNat
      · rw [if_pos h1] at hab
        exact absurd hab (by decide)
      · by_cases h2 : y.toNat < x.toNat
        · rw [if_pos h2] at hba
          exact absurd hba (by decide)
        · rw [if_neg h1, if_neg h2] at hab
          rw [if_neg h2, if_neg h1] at hba
          have hx : x = y := char_toNat_inj (by omega)
          rw [hx, ih hab hba]

theorem charListLt_asymm {a b : List Char} (h : charListLt a b = true) :
    charListLt b a = false := by
  by_contra hc
  have hba : charListLt b a = true := by
    cases hb : charListLt b a with
    | false => exact absurd hb hc
    | true => rfl
  have h2 := charListLt_trans h hba
  rw [charListLt_irrefl] at h2
  exact absurd h2 (by decide)

theorem charListLt_ff_trans : ∀ {a b c : List Char},
    charListLt a b = false → charListLt b c = false → charListLt a c = false := by
  intro a b c hab hbc
  cases hac : charListLt a c with
  | false => rfl
  | true =>
    by_cases hcb : charListLt c b = true
    · have h2 := charListLt_trans hac hcb
      rw [h2] at hab
      exact absurd hab (by decide)
    · have hcb' : charListLt c b = false := by
        cases hx : charListLt c b with
        | false => rfl
        | true => exact absurd hx hcb
      have hbc2 : b = c := charListLt_eq_of_ff hbc hcb'
      rw [hbc2, hac] at hab
      exact absurd hab (by decide)

/-! ### Sorting of object fields -/

theorem insertField_perm (f : JField) : ∀ (l : Item),
    List.Perm (insertField f l) (f :: l) := by
  intro l
  induction l with
  | nil => simp [insertField]
  | cons g gs ih =>
    simp only [insertField]
    by_cases hc : fieldLe f g
    · rw [if_pos hc]
    · rw [if_neg hc]
      exact List.Perm.trans (List.Perm.cons g ih) (List.Perm.swap f g gs)

theorem mem_insertField {x f : JField} {l : Item}
    (hx : x ∈ insertField f l) : x = f ∨ x ∈ l := by
  have h2 := (insertField_perm f l).mem_iff.mp hx
  simpa using h2

theorem sortFields_perm (it : Item) : List.Perm (sortFields it) it := by
  induction it with
  | nil => simp [sortFields]
  | cons f fs ih =>
    simp only [sortFields]
    exact List.Perm.trans (insertField_perm f (sortFields fs)) (List.Perm.cons f ih)

theorem insertField_pairwise {f : JField} : ∀ {l : Item},
    l.Pairwise KeyLeR → (insertField f l).Pairwise KeyLeR := by
  intro l
  induction l with
  | nil => intro _; simp [insertField, List.pairwise_cons]
  | cons g gs ih =>
    intro hp
    rw [List.pairwise_cons] at hp
    simp only [insertField]
    by_cases hc : fieldLe f g
    · rw [if_pos hc]
      have hfg : KeyLeR f g := by
        unfold fieldLe at hc
        unfold KeyLeR
        cases hx : charListLt g.1.data f.1.data with
        | false => rfl
        | true => rw [hx] at hc; exact absurd hc (by decide)
      rw [List.pairwise_cons]
      constructor
      · intro z hz
        rcases List.mem_cons.mp hz with h | h
        · rw [h]; exact hfg
        · exact charListLt_ff_trans (hp.1 z h) hfg
      · rw [List.pairwise_cons]
        exact hp
    · rw [if_neg hc]
      have hgf : KeyLeR g f := by
        unfold fieldLe at hc
        unfold KeyLeR
        have hx : charListLt g.1.data f.1.data = true := by
          cases hx : charListLt g.1.data f.1.data with
          | false => rw [hx] at hc; exact absurd hc (by decide)
          | true => rfl
        exact charListLt_asymm hx
      rw [List.pairwise_cons]
      constructor
      · intro z hz
        rcases mem_insertField hz with h | h
        · rw [h]; exact hgf
        · exact hp.1 z h
      · exact ih hp.2

theorem sortFields_pairwise (it : Item) : (sortFields it).Pairwise KeyLeR := by
  induction it with
  | nil => simp [sortFields]
  | cons f fs ih =>
    simp only [sortFields]
    exact insertField_pairwise ih

theorem sorted_nodup_perm_eq : ∀ (l1 l2 : Item), List.Perm l1 l2 →
    l1.Pairwise KeyLeR → l2.Pairwise KeyLeR → (l1.map Prod.fst).Nodup →
    l1 = l2 := by
  intro l1
  induction l1 with
  | nil =>
    intro l2 hperm _ _ _
    exact (hperm.symm.eq_nil).symm
  | cons f fs ih =>
    intro l2 hperm hp1 hp2 hnd
    cases l2 with
    | nil => exact absurd hperm.eq_nil (by simp)
    | cons g gs =>
      by_cases hfg : f = g
      · subst hfg
        rw [List.pairwise_cons] at hp1 hp2
        rw [List.map_cons, List.nodup_cons] at hnd
        rw [ih gs hperm.cons_inv hp1.2 hp2.2 hnd.2]
      · have hf2 : f ∈ g :: gs := hperm.mem_iff.mp (List.mem_cons_self f fs)
        have hg1 : g ∈ f :: fs := hperm.symm.mem_iff.mp (List.mem_cons_self g gs)
        have hfgs : f ∈ gs := by
          rcases List.mem_cons.mp hf2 with h | h
          · exact absurd h hfg
          · exact h
        have hgfs : g ∈ fs := by
          rcases List.mem_cons.mp hg1 with h | h
          · exact absurd h.symm hfg
          · exact h
        rw [List.pairwise_cons] at hp1 hp2
        have h1 : KeyLeR f g := hp1.1 g hgfs
        have h2 : KeyLeR g f := hp2.1 f hfgs
        have hkeys : f.1 = g.1 := by
          have := charListLt_eq_of_ff h2 h1
          exact string_data_inj this
        rw [List.map_cons, List.nodup_cons] at hnd
        exact absurd (List.mem_map_of_mem Prod.fst hgfs) (by rw [← hkeys] at *; exact fun hx => hnd.1 (by simpa using hx))

theorem sortFields_nodup_keys {it : Item} (h : (it.map Prod.fst).Nodup) :
    ((sortFields it).map Prod.fst).Nodup :=
  (((sortFields_perm it).map Prod.fst).nodup_iff).mpr h

theorem sortFields_eq_of_perm {it it' : Item} (hperm : List.Perm it it')
    (hnd : (it.map Prod.fst).Nodup) : sortFields it = sortFields it' :=
  sorted_nodup_perm_eq _ _
    (List.Perm.trans (sortFields_perm it)
      (List.Perm.trans hperm (sortFields_perm it').symm))
    (sortFields_pairwise it) (sortFields_pairwise it')
    (sortFields_nodup_keys hnd)

theorem sortFields_perm_of_eq {it it' : Item}
    (h : sortFields it = sortFields it') : List.Perm it it' :=
  List.Perm.trans (sortFields_perm it).symm (by rw [h]; exact sortFields_perm it')

/-! ### Injectivity of the canonical serialization: character escapes -/

theorem hexDigitChar_inj {a b : Nat} (ha : a < 16) (hb : b < 16)
    (h : hexDigitChar a = hexDigitChar b) : a = b := by
  interval_cases a <;> interval_cases b <;> revert h <;> decide

theorem uEscape_pre {n m : Nat} {x y : List Char} (hn : n < 65536)
    (hm : m < 65536) (h : uEscape n ++ x = uEscape m ++ y) : n = m ∧ x = y := by
  simp only [uEscape, toHex4, List.cons_append, List.cons.injEq, List.nil_append,
    true_and] at h
  obtain ⟨h3, h2, h1, h0, hxy⟩ := h
  have e3 := hexDigitChar_inj (Nat.mod_lt _ (by omega)) (Nat.mod_lt _ (by omega)) h3
  have e2 := hexDigitChar_inj (Nat.mod_lt _ (by omega)) (Nat.mod_lt _ (by omega)) h2
  have e1 := hexDigitChar_inj (Nat.mod_lt _ (by omega)) (Nat.mod_lt _ (by omega)) h1
  have e0 := hexDigitChar_inj (Nat.mod_lt _ (by omega)) (Nat.mod_lt _ (by omega)) h0
  exact ⟨by omega, hxy⟩

theorem escapeChar_classify (c : Char) :
    (escapeChar c = [c] ∧ c ≠ '\\' ∧ c ≠ '"' ∧ 32 ≤ c.toNat ∧ c.toNat < 127)
  ∨ (∃ d, escapeChar c = ['\\', d] ∧ simpleEsc c.toNat d)
  ∨ (escapeChar c = uEscape c.toNat ∧ c.toNat < 65536 ∧ (c.toNat < 32 ∨ 127 ≤ c.toNat))
  ∨ (escapeChar c = uEscape (55296 + (c.toNat - 65536) / 1024) ++
       uEscape (56320 + (c.toNat - 65536) % 1024) ∧ 65536 ≤ c.toNat) := by
  by_cases hc1 : c = '\\'
  · refine Or.inr (Or.inl ⟨'\\', ?_, Or.inl ⟨?_, rfl⟩⟩)
    · simp [escapeChar, hc1]
    · rw [hc1]; decide
  by_cases hc2 : c = '"'
  · refine Or.inr (Or.inl ⟨'"', ?_, Or.inr (Or.inl ⟨?_, rfl⟩)⟩)
    · simp [escapeChar, hc1, hc2]
    · rw [hc2]; decide
  by_cases hc3 : c.toNat = 8
  · exact Or.inr (Or.inl ⟨'b', by simp [escapeChar, hc1, hc2, hc3],
      Or.inr (Or.inr (Or.inl ⟨hc3, rfl⟩))⟩)
  by_cases hc4 : c.toNat = 12
  · exact Or.inr (Or.inl ⟨'f', by simp [escapeChar, hc1, hc2, hc3, hc4],
      Or.inr (Or.inr (Or.inr (Or.inl ⟨hc4, rfl⟩)))⟩)
  by_cases hc5 : c.toNat = 10
  · exact Or.inr (Or.inl ⟨'n', by simp [escapeChar, hc1, hc2, hc3, hc4, hc5],
      Or.inr (Or.inr (Or.inr (Or.inr (Or.inl ⟨hc5, rfl⟩))))⟩)
  by_cases hc6 : c.toNat = 13
  · exact Or.inr (Or.inl ⟨'r', by simp [escapeChar, hc1, hc2, hc3, hc4, hc5, hc6],
      Or.inr (Or.inr (Or.inr (Or.inr (Or.inr (Or.inl ⟨hc6, rfl⟩)))))⟩)
  by_cases hc7 : c.toNat = 9
  · exact Or.inr (Or.inl ⟨'t', by simp [escapeChar, hc1, hc2, hc3, hc4, hc5, hc6, hc7],
      Or.inr (Or.inr (Or.inr (Or.inr (Or.inr (Or.inr ⟨hc7, rfl⟩)))))⟩)
  by_cases hc8 : c.toNat < 32
  · exact Or.inr (Or.inr (Or.inl
      ⟨by simp [escapeChar, hc1, hc2, hc3, hc4, hc5, hc6, hc7, hc8], by omega, Or.inl hc8⟩))
  by_cases hc9 : c.toNat < 127
  · exact Or.inl ⟨by simp [escapeChar, hc1, hc2, hc3, hc4, hc5, hc6, hc7, hc8, hc9],
      hc1, hc2, by omega, hc9⟩
  by_cases hc10 : c.toNat < 65536
  · exact Or.inr (Or.inr (Or.inl
      ⟨by simp [escapeChar, hc1, hc2, hc3, hc4, hc5, hc6, hc7, hc8, hc9, hc10],
       hc10, Or.inr (by omega)⟩))
  · exact Or.inr (Or.inr (Or.inr
      ⟨by simp [escapeChar, hc1, hc2, hc3, hc4, hc5, hc6, hc7, hc8, hc9, hc10],
       by omega⟩))

theorem simpleEsc_ne_u {n : Nat} {d : Char} (h : simpleEsc n d) : d ≠ 'u' := by
  rcases h with ⟨_, rfl⟩ | ⟨_, rfl⟩ | ⟨_, rfl⟩ | ⟨_, rfl⟩ | ⟨_, rfl⟩ | ⟨_, rfl⟩ | ⟨_, rfl⟩ <;>
    decide

theorem simpleEsc_inj {n m : Nat} {d : Char} (h1 : simpleEsc n d)
    (h2 : simpleEsc m d) : n = m := by
  rcases h1 with ⟨rfl, rfl⟩ | ⟨rfl, rfl⟩ | ⟨rfl, rfl⟩ | ⟨rfl, rfl⟩ | ⟨rfl, rfl⟩ | ⟨rfl, rfl⟩ | ⟨rfl, rfl⟩ <;>
    rcases h2 with ⟨rfl, h⟩ | ⟨rfl, h⟩ | ⟨rfl, h⟩ | ⟨rfl, h⟩ | ⟨rfl, h⟩ | ⟨rfl, h⟩ | ⟨rfl, h⟩ <;>
    first
    | rfl
    | exact absurd h (by decide)

theorem hi_unit_lt (n : Nat) (hn : n < 1114112) : 55296 + (n - 65536) / 1024 < 65536 := by
  omega

theorem lo_unit_lt (n : Nat) : 56320 + (n - 65536) % 1024 < 65536 := by
  omega

theorem escapeChar_pre {a b : Char} {x y : List Char}
    (h : escapeChar a ++ x = escapeChar b ++ y) : a = b ∧ x = y := by
  have hva := char_valid_nat a
  have hvb := char_valid_nat b
  rcases escapeChar_classify a with
      ⟨hea, ha1, ha2, ha3, ha4⟩ | ⟨d, hea, hda⟩ | ⟨hea, hba, hra⟩ | ⟨hea, hga⟩ <;>
    rcases escapeChar_classify b with
      ⟨heb, hb1, hb2, hb3, hb4⟩ | ⟨e, heb, hdb⟩ | ⟨heb, hbb, hrb⟩ | ⟨heb, hgb⟩ <;>
    rw [hea, heb] at h
  · -- plain / plain
    simp only [List.cons_append, List.nil_append, List.cons.injEq] at h
    exact ⟨h.1, h.2⟩
  · -- plain / simple
    simp only [List.cons_append, List.nil_append, List.cons.injEq] at h
    exact absurd h.1 ha1
  · -- plain / u
    simp only [uEscape, List.cons_append, List.nil_append, List.cons.injEq] at h
    exact absurd h.1 ha1
  · -- plain / pair
    simp only [uEscape, toHex4, List.cons_append, List.nil_append, List.append_assoc,
      List.cons.injEq] at h
    exact absurd h.1 ha1
  · -- simple / plain
    simp only [List.cons_append, List.nil_append, List.cons.injEq] at h
    exact absurd h.1.symm hb1
  · -- simple / simple
    simp only [List.cons_append, List.nil_append, List.cons.injEq, true_and] at h
    obtain ⟨hde, hxy⟩ := h
    subst hde
    exact ⟨char_toNat_inj (simpleEsc_inj hda hdb), hxy⟩
  · -- simple / u
    simp only [uEscape, List.cons_append, List.nil_append, List.cons.injEq, true_and] at h
    exact absurd h.1 (simpleEsc_ne_u hda)
  · -- simple / pair
    simp only [uEscape, toHex4, List.cons_append, List.nil_append, List.append_assoc,
      List.cons.injEq, true_and] at h
    exact absurd h.1 (simpleEsc_ne_u hda)
  · -- u / plain
    simp only [uEscape, List.cons_append, List.nil_append, List.cons.injEq] at h
    exact absurd h.1.symm hb1
  · -- u / simple
    simp only [uEscape, List.cons_append, List.nil_append, List.cons.injEq, true_and] at h
    exact absurd h.1.symm (simpleEsc_ne_u hdb)
  · -- u / u
    obtain ⟨hnm, hxy⟩ := uEscape_pre hba hbb h
    exact ⟨char_toNat_inj hnm, hxy⟩
  · -- u / pair
    rw [List.append_assoc] at h
    have hbnd : b.toNat < 1114112 := by omega
    obtain ⟨hnm, _⟩ := uEscape_pre hba (hi_unit_lt b.toNat hbnd) h
    omega
  · -- pair / plain
    simp only [uEscape, toHex4, List.cons_append, List.nil_append, List.append_assoc,
      List.cons.injEq] at h
    exact absurd h.1.symm hb1
  · -- pair / simple
    simp only [uEscape, toHex4, List.cons_append, List.nil_append, List.append_assoc,
      List.cons.injEq, true_and] at h
    exact absurd h.1.symm (simpleEsc_ne_u hdb)
  · -- pair / u
    rw [List.append_assoc] at h
    have habnd : a.toNat < 1114112 := by omega
    obtain ⟨hnm, _⟩ := uEscape_pre (hi_unit_lt a.toNat habnd) hbb h
    omega
  · -- pair / pair
    rw [List.append_assoc, List.append_assoc] at h
    have habnd : a.toNat < 1114112 := by omega
    have hbbnd : b.toNat < 1114112 := by omega
    obtain ⟨hhi, hrest⟩ :=
      uEscape_pre (hi_unit_lt a.toNat habnd) (hi_unit_lt b.toNat hbbnd) h
    obtain ⟨hlo, hxy⟩ := uEscape_pre (lo_unit_lt a.toNat) (lo_unit_lt b.toNat) hrest
    have : a.toNat = b.toNat := by omega
    exact ⟨char_toNat_inj this, hxy⟩

theorem escapeChar_shape (c : Char) :
    (∃ t, escapeChar c = '\\' :: t) ∨
    (escapeChar c = [c] ∧ c ≠ '\\' ∧ c ≠ '"') := by
  rcases escapeChar_classify c with
      ⟨he, h1, h2, _, _⟩ | ⟨d, he, _⟩ | ⟨he, _, _⟩ | ⟨he, _⟩
  · exact Or.inr ⟨he, h1, h2⟩
  · exact Or.inl ⟨[d], he⟩
  · exact Or.inl ⟨_, by rw [he]; rfl⟩
  · exact Or.inl ⟨_, by rw [he]; rfl⟩

theorem escapeList_run_eq : ∀ (as : List Char) {bs x y : List Char},
    escapeList as ++ '"' :: x = escapeList bs ++ '"' :: y → as = bs ∧ x = y := by
  intro as
  induction as with
  | nil =>
    intro bs x y h
    cases bs with
    | nil =>
      simp only [escapeList, List.nil_append, List.cons.injEq, true_and] at h
      exact ⟨rfl, h⟩
    | cons b bs2 =>
      simp only [escapeList, List.nil_append, List.append_assoc] at h
      rcases escapeChar_shape b with ⟨t, he⟩ | ⟨he, _, hb2⟩
      · rw [he] at h
        simp only [List.cons_append, List.cons.injEq] at h
        exact absurd h.1 (by decide)
      · rw [he] at h
        simp only [List.cons_append, List.nil_append, List.cons.injEq] at h
        exact absurd h.1.symm hb2
  | cons a as2 ih =>
    intro bs x y h
    cases bs with
    | nil =>
      simp only [escapeList, List.nil_append, List.append_assoc] at h
      rcases escapeChar_shape a with ⟨t, he⟩ | ⟨he, _, ha2⟩
      · rw [he] at h
        simp only [List.cons_append, List.cons.injEq] at h
        exact absurd h.1 (by decide)
      · rw [he] at h
        simp only [List.cons_append, List.nil_append, List.cons.injEq] at h
        exact absurd h.1 ha2
    | cons b bs2 =>
      simp only [escapeList, List.append_assoc] at h
      obtain ⟨hab, hrest⟩ := escapeChar_pre h
      obtain ⟨h2, h3⟩ := ih hrest
      exact ⟨by rw [hab, h2], h3⟩

/-! ### Injectivity of the canonical serialization: numbers -/

theorem hexDigitChar_isDigit {d : Nat} (hd : d < 10) :
    (hexDigitChar d).isDigit = true := by
  interval_cases d <;> decide

theorem hexDigitChar_digit_inj {a b : Nat} (ha : a < 10) (hb : b < 10)
    (h : hexDigitChar a = hexDigitChar b) : a = b :=
  hexDigitChar_inj (by omega) (by omega) h

theorem natRepr_ne_nil (n : Nat) : natRepr n ≠ [] := by
  unfold natRepr
  split_ifs with h
  · simp
  · simp [Nat.digits_ne_nil_iff_ne_zero.mpr h]

theorem natRepr_all_digit {n : Nat} : ∀ c ∈ natRepr n, c.isDigit = true := by
  intro c hc
  unfold natRepr at hc
  split_ifs at hc with h
  · simp at hc
    rw [hc]; decide
  · simp only [List.mem_map, List.mem_reverse] at hc
    obtain ⟨d, hd, hcd⟩ := hc
    have := Nat.digits_lt_base (by omega) hd
    rw [← hcd]
    exact hexDigitChar_isDigit this

theorem digit_map_inj : ∀ {as bs : List Nat}, (∀ a ∈ as, a < 10) →
    (∀ b ∈ bs, b < 10) → as.map hexDigitChar = bs.map hexDigitChar → as = bs := by
  intro as
  induction as with
  | nil =>
    intro bs _ _ h
    cases bs with
    | nil => rfl
    | cons b bs2 => simp at h
  | cons a as2 ih =>
    intro bs ha hb h
    cases bs with
    | nil => simp at h
    | cons b bs2 =>
      simp only [List.map_cons, List.cons.injEq] at h
      have h1 := hexDigitChar_digit_inj (ha a (by simp)) (hb b (by simp)) h.1
      have h2 := ih (fun z hz => ha z (List.mem_cons_of_mem _ hz))
        (fun z hz => hb z (List.mem_cons_of_mem _ hz)) h.2
      rw [h1, h2]

theorem natRepr_inj : ∀ {n m : Nat}, natRepr n = natRepr m → n = m := by
  intro n m h
  unfold natRepr at h
  split_ifs at h with h1 h2 h2
  · omega
  · have hne : Nat.digits 10 m ≠ [] := Nat.digits_ne_nil_iff_ne_zero.mpr h2
    cases hd : Nat.digits 10 m with
    | nil => exact absurd hd hne
    | cons d ds =>
      rw [hd] at h
      have hlt : ∀ a ∈ Nat.digits 10 m, a < 10 := fun a ha =>
        Nat.digits_lt_base (by omega) ha
      rw [hd] at hlt
      have : [(0 : Nat)] = (d :: ds).reverse := by
        exact @digit_map_inj [0] ((d :: ds).reverse)
          (by intro a ha; simp at ha; omega)
          (by intro a ha; exact hlt a (List.mem_reverse.mp ha)) (by simpa using h)
      have hdig : Nat.digits 10 m = [0] := by
        rw [hd]
        have := congrArg List.reverse this
        simpa using this.symm
      have := Nat.ofDigits_digits 10 m
      rw [hdig] at this
      simp [Nat.ofDigits] at this
      omega
  · have hne : Nat.digits 10 n ≠ [] := Nat.digits_ne_nil_iff_ne_zero.mpr h1
    cases hd : Nat.digits 10 n with
    | nil => exact absurd hd hne
    | cons d ds =>
      rw [hd] at h
      have hlt : ∀ a ∈ Nat.digits 10 n, a < 10 := fun a ha =>
        Nat.digits_lt_base (by omega) ha
      rw [hd] at hlt
      have : (d :: ds).reverse = [(0 : Nat)] := by
        exact @digit_map_inj ((d :: ds).reverse) [0]
          (by intro a ha; exact hlt a (List.mem_reverse.mp ha))
          (by intro a ha; simp at ha; omega) (by simpa using h)
      have hdig : Nat.digits 10 n = [0] := by
        rw [hd]
        have := congrArg List.reverse this
        simpa using this
      have := Nat.ofDigits_digits 10 n
      rw [hdig] at this
      simp [Nat.ofDigits] at this
      omega
  · have ha : ∀ a ∈ Nat.digits 10 n, a < 10 := fun a h3 =>
      Nat.digits_lt_base (by omega) h3
    have hb : ∀ a ∈ Nat.digits 10 m, a < 10 := fun a h3 =>
      Nat.digits_lt_base (by omega) h3
    have hrev := @digit_map_inj
      ((Nat.digits 10 n).reverse) ((Nat.digits 10 m).reverse)
      (by intro a h3; exact ha a (List.mem_reverse.mp h3))
      (by intro a h3; exact hb a (List.mem_reverse.mp h3)) h
    have hdig : Nat.digits 10 n = Nat.digits 10 m := by
      have := congrArg List.reverse hrev
      simpa using this
    have hofn := Nat.ofDigits_digits 10 n
    have hofm := Nat.ofDigits_digits 10 m
    rw [← hofn, ← hofm, hdig]

theorem digit_run_eq : ∀ (as : List Char) {bs x y : List Char},
    (∀ c ∈ as, c.isDigit = true) → (∀ c ∈ bs, c.isDigit = true) →
    Delim x → Delim y → as ++ x = bs ++ y → as = bs ∧ x = y := by
  intro as
  induction as with
  | nil =>
    intro bs x y _ hb hx _ h
    cases bs with
    | nil => exact ⟨rfl, h⟩
    | cons b bs2 =>
      rw [List.nil_append, List.cons_append] at h
      rw [h] at hx
      simp only [Delim] at hx
      exact absurd (hb b (by simp)) (by rw [hx]; decide)
  | cons a as2 ih =>
    intro bs x y ha hb hx hy h
    cases bs with
    | nil =>
      rw [List.nil_append, List.cons_append] at h
      rw [← h] at hy
      simp only [Delim] at hy
      exact absurd (ha a (by simp)) (by rw [hy]; decide)
    | cons b bs2 =>
      simp only [List.cons_append, List.cons.injEq] at h
      obtain ⟨hab, hrest⟩ := h
      obtain ⟨h2, h3⟩ := ih (fun c hc => ha c (List.mem_cons_of_mem _ hc))
        (fun c hc => hb c (List.mem_cons_of_mem _ hc)) hx hy hrest
      exact ⟨by rw [hab, h2], h3⟩

theorem intRepr_shape (i : Int) :
    ∃ c cs, intRepr i = c :: cs ∧ (c.isDigit = true ∨ c = '-') := by
  cases i with
  | ofNat m =>
    cases hm : natRepr m with
    | nil => exact absurd hm (natRepr_ne_nil m)
    | cons c cs =>
      refine ⟨c, cs, hm, Or.inl ?_⟩
      exact natRepr_all_digit c (by rw [hm]; simp)
  | negSucc m => exact ⟨'-', natRepr (m + 1), rfl, Or.inr rfl⟩

theorem intRepr_run_eq : ∀ {i j : Int} {x y : List Char}, Delim x → Delim y →
    intRepr i ++ x = intRepr j ++ y → i = j ∧ x = y := by
  intro i j x y hx hy h
  cases i with
  | ofNat n =>
    cases j with
    | ofNat m =>
      simp only [intRepr] at h
      obtain ⟨h1, h2⟩ := digit_run_eq _ natRepr_all_digit natRepr_all_digit hx hy h
      exact ⟨by rw [natRepr_inj h1], h2⟩
    | negSucc m =>
      simp only [intRepr, List.cons_append] at h
      cases hn : natRepr n with
      | nil => exact absurd hn (natRepr_ne_nil n)
      | cons c cs =>
        rw [hn, List.cons_append, List.cons.injEq] at h
        have hd := @natRepr_all_digit n c (by rw [hn]; simp)
        rw [h.1] at hd
        exact absurd hd (by decide)
  | negSucc n =>
    cases j with
    | ofNat m =>
      simp only [intRepr, List.cons_append] at h
      cases hm : natRepr m with
      | nil => exact absurd hm (natRepr_ne_nil m)
      | cons c cs =>
        rw [hm, List.cons_append, List.cons.injEq] at h
        have hd := @natRepr_all_digit m c (by rw [hm]; simp)
        rw [← h.1] at hd
        exact absurd hd (by decide)
    | negSucc m =>
      simp only [intRepr, List.cons_append, List.cons.injEq, true_and] at h
      obtain ⟨h1, h2⟩ := digit_run_eq _ natRepr_all_digit natRepr_all_digit hx hy h
      have h3 := natRepr_inj h1
      have hnm : n = m := by omega
      exact ⟨by rw [hnm], h2⟩

theorem dumpsPrim_pre : ∀ {p q : Prim} {x y : List Char}, Delim x → Delim y →
    dumpsPrim p ++ x = dumpsPrim q ++ y → p = q ∧ x = y := by
  intro p q x y hx hy h
  cases p with
  | null =>
    cases q with
    | null =>
      simp only [dumpsPrim, List.cons_append, List.nil_append, List.cons.injEq,
        true_and] at h
      exact ⟨rfl, h⟩
    | bool b =>
      cases b <;>
        simp only [dumpsPrim, List.cons_append, List.nil_append, List.cons.injEq] at h <;>
        exact absurd h.1 (by decide)
    | int n =>
      rcases intRepr_shape n with ⟨c, cs, he, hd⟩
      simp only [dumpsPrim, he, List.cons_append, List.nil_append, List.cons.injEq] at h
      rcases hd with hd | hd
      · rw [← h.1] at hd
        exact absurd hd (by decide)
      · exact absurd (h.1.trans hd) (by decide)
    | str s =>
      simp only [dumpsPrim, List.cons_append, List.nil_append, List.cons.injEq] at h
      exact absurd h.1 (by decide)
  | bool b =>
    cases q with
    | null =>
      cases b <;>
        simp only [dumpsPrim, List.cons_append, List.nil_append, List.cons.injEq] at h <;>
        exact absurd h.1 (by decide)
    | bool b2 =>
      cases b <;> cases b2 <;>
        simp only [dumpsPrim, List.cons_append, List.nil_append, List.cons.injEq,
          true_and] at h
      · exact ⟨rfl, h⟩
      · exact absurd h.1 (by decide)
      · exact absurd h.1 (by decide)
      · exact ⟨rfl, h⟩
    | int n =>
      rcases intRepr_shape n with ⟨c, cs, he, hd⟩
      cases b <;>
        simp only [dumpsPrim, he, List.cons_append, List.nil_append, List.cons.injEq] at h <;>
        rcases hd with hd | hd
      · rw [← h.1] at hd
        exact absurd hd (by decide)
      · exact absurd (h.1.trans hd) (by decide)
      · rw [← h.1] at hd
        exact absurd hd (by decide)
      · exact absurd (h.1.trans hd) (by decide)
    | str s =>
      cases b <;>
        simp only [dumpsPrim, List.cons_append, List.nil_append, List.cons.injEq] at h <;>
        exact absurd h.1 (by decide)
  | int n =>
    cases q with
    | null =>
      rcases intRepr_shape n with ⟨c, cs, he, hd⟩
      simp only [dumpsPrim, he, List.cons_append, List.nil_append, List.cons.injEq] at h
      rcases hd with hd | hd
      · rw [h.1] at hd
        exact absurd hd (by decide)
      · exact absurd (h.1.symm.trans hd) (by decide)
    | bool b =>
      rcases intRepr_shape n with ⟨c, cs, he, hd⟩
      cases b <;>
        simp only [dumpsPrim, he, List.cons_append, List.nil_append, List.cons.injEq] at h <;>
        rcases hd with hd | hd
      · rw [h.1] at hd
        exact absurd hd (by decide)
      · exact absurd (h.1.symm.trans hd) (by decide)
      · rw [h.1] at hd
        exact absurd hd (by decide)
      · exact absurd (h.1.symm.trans hd) (by decide)
    | int m =>
      simp only [dumpsPrim] at h
      obtain ⟨h1, h2⟩ := intRepr_run_eq hx hy h
      exact ⟨by rw [h1], h2⟩
    | str s =>
      rcases intRepr_shape n with ⟨c, cs, he, hd⟩
      simp only [dumpsPrim, he, List.cons_append, List.nil_append, List.cons.injEq] at h
      rcases hd with hd | hd
      · rw [h.1] at hd
        exact absurd hd (by decide)
      · exact absurd (h.1.symm.trans hd) (by decide)
  | str s =>
    cases q with
    | null =>
      simp only [dumpsPrim, List.cons_append, List.nil_append, List.cons.injEq] at h
      exact absurd h.1 (by decide)
    | bool b =>
      cases b <;>
        simp only [dumpsPrim, List.cons_append, List.nil_append, List.cons.injEq] at h <;>
        exact absurd h.1 (by decide)
    | int n =>
      rcases intRepr_shape n with ⟨c, cs, he, hd⟩
      simp only [dumpsPrim, he, List.cons_append, List.nil_append, List.cons.injEq] at h
      rcases hd with hd | hd
      · rw [← h.1] at hd
        exact absurd hd (by decide)
      · exact absurd (h.1.trans hd) (by decide)
    | str t =>
      simp only [dumpsPrim, List.cons_append, List.cons.injEq, List.append_assoc,
        List.singleton_append, true_and] at h
      obtain ⟨h1, h2⟩ := escapeList_run_eq _ h
      exact ⟨by rw [string_data_inj h1], h2⟩

/-! ### Injectivity of the canonical serialization: objects and arrays -/

theorem fieldStr_pre {f g : JField} {x y : List Char} (hx : Delim x)
    (hy : Delim y) (h : fieldStr f ++ x = fieldStr g ++ y) : f = g ∧ x = y := by
  simp only [fieldStr, List.cons_append, List.append_assoc, List.cons.injEq,
    true_and] at h
  obtain ⟨hk, hrest⟩ := escapeList_run_eq _ h
  simp only [List.cons.injEq, true_and] at hrest
  obtain ⟨hv, hxy⟩ := dumpsPrim_pre hx hy hrest
  exact ⟨Prod.ext_iff.mpr ⟨string_data_inj hk, hv⟩, hxy⟩

theorem fieldsSep_delim (fs : Item) (x : List Char) :
    Delim (fieldsSep fs ++ '}' :: x) := by
  cases fs with
  | nil => simp [fieldsSep, Delim]
  | cons f fs2 => simp [fieldsSep, Delim]

theorem itemsSep_delim (js : List Item) (x : List Char) :
    Delim (itemsSep js ++ ']' :: x) := by
  cases js with
  | nil => simp [itemsSep, Delim]
  | cons j js2 => simp [itemsSep, Delim]

theorem fieldsSep_brace : ∀ (fs : Item) {gs : Item} {x y : List Char},
    fieldsSep fs ++ '}' :: x = fieldsSep gs ++ '}' :: y → fs = gs ∧ x = y := by
  intro fs
  induction fs with
  | nil =>
    intro gs x y h
    cases gs with
    | nil =>
      simp only [fieldsSep, List.nil_append, List.cons.injEq, true_and] at h
      exact ⟨rfl, h⟩
    | cons g gs2 =>
      simp only [fieldsSep, List.nil_append, List.cons_append, List.cons.injEq] at h
      exact absurd h.1 (by decide)
  | cons f fs2 ih =>
    intro gs x y h
    cases gs with
    | nil =>
      simp only [fieldsSep, List.nil_append, List.cons_append, List.cons.injEq] at h
      exact absurd h.1 (by decide)
    | cons g gs2 =>
      simp only [fieldsSep, List.cons_append, List.append_assoc, List.cons.injEq,
        true_and] at h
      obtain ⟨hfg, hrest⟩ := fieldStr_pre (fieldsSep_delim fs2 x) (fieldsSep_delim gs2 y) h
      obtain ⟨h2, h3⟩ := ih hrest
      exact ⟨by rw [hfg, h2], h3⟩

theorem fieldsStr_brace : ∀ {fs gs : Item} {x y : List Char},
    fieldsStr fs ++ '}' :: x = fieldsStr gs ++ '}' :: y → fs = gs ∧ x = y := by
  intro fs gs x y h
  cases fs with
  | nil =>
    cases gs with
    | nil =>
      simp only [fieldsStr, List.nil_append, List.cons.injEq, true_and] at h
      exact ⟨rfl, h⟩
    | cons g gs2 =>
      simp only [fieldsStr, fieldStr, List.nil_append, List.cons_append,
        List.cons.injEq] at h
      exact absurd h.1 (by decide)
  | cons f fs2 =>
    cases gs with
    | nil =>
      simp only [fieldsStr, fieldStr, List.nil_append, List.cons_append,
        List.cons.injEq] at h
      exact absurd h.1 (by decide)
    | cons g gs2 =>
      simp only [fieldsStr, List.append_assoc] at h
      obtain ⟨hfg, hrest⟩ := fieldStr_pre (fieldsSep_delim fs2 x) (fieldsSep_delim gs2 y) h
      obtain ⟨h2, h3⟩ := fieldsSep_brace fs2 hrest
      exact ⟨by rw [hfg, h2], h3⟩

theorem itemStrS_pre {j k : Item} {x y : List Char}
    (h : itemStrS j ++ x = itemStrS k ++ y) : j = k ∧ x = y := by
  simp only [itemStrS, List.cons_append, List.append_assoc, List.singleton_append,
    List.cons.injEq, true_and] at h
  exact fieldsStr_brace h

theorem itemsSep_bracket : ∀ (js : List Item) {ks : List Item} {x y : List Char},
    itemsSep js ++ ']' :: x = itemsSep ks ++ ']' :: y → js = ks ∧ x = y := by
  intro js
  induction js with
  | nil =>
    intro ks x y h
    cases ks with
    | nil =>
      simp only [itemsSep, List.nil_append, List.cons.injEq, true_and] at h
      exact ⟨rfl, h⟩
    | cons k ks2 =>
      simp only [itemsSep, List.nil_append, List.cons_append, List.cons.injEq] at h
      exact absurd h.1 (by decide)
  | cons j js2 ih =>
    intro ks x y h
    cases ks with
    | nil =>
      simp only [itemsSep, List.nil_append, List.cons_append, List.cons.injEq] at h
      exact absurd h.1 (by decide)
    | cons k ks2 =>
      simp only [itemsSep, List.cons_append, List.append_assoc, List.cons.injEq,
        true_and] at h
      obtain ⟨hjk, hrest⟩ := itemStrS_pre h
      obtain ⟨h2, h3⟩ := ih hrest
      exact ⟨by rw [hjk, h2], h3⟩

theorem itemsStr_bracket : ∀ {js ks : List Item} {x y : List Char},
    itemsStr js ++ ']' :: x = itemsStr ks ++ ']' :: y → js = ks ∧ x = y := by
  intro js ks x y h
  cases js with
  | nil =>
    cases ks with
    | nil =>
      simp only [itemsStr, List.nil_append, List.cons.injEq, true_and] at h
      exact ⟨rfl, h⟩
    | cons k ks2 =>
      simp only [itemsStr, itemStrS, List.nil_append, List.cons_append,
        List.cons.injEq] at h
      exact absurd h.1 (by decide)
  | cons j js2 =>
    cases ks with
    | nil =>
      simp only [itemsStr, itemStrS, List.nil_append, List.cons_append,
        List.cons.injEq] at h
      exact absurd h.1 (by decide)
    | cons k ks2 =>
      simp only [itemsStr, List.append_assoc] at h
      obtain ⟨hjk, hrest⟩ := itemStrS_pre h
      obtain ⟨h2, h3⟩ := itemsSep_bracket js2 hrest
      exact ⟨by rw [hjk, h2], h3⟩

theorem dumpsListing_inj {l l' : Listing}
    (h : dumpsListing l = dumpsListing l') :
    l.map sortFields = l'.map sortFields := by
  have hL : dumpsListingL l = dumpsListingL l' := congrArg String.data h
  simp only [dumpsListingL, List.cons.injEq, true_and] at hL
  have h2 : itemsStr (l.map sortFields) ++ ']' :: [] =
      itemsStr (l'.map sortFields) ++ ']' :: [] := by
    simpa using hL
  exact (itemsStr_bracket h2).1

theorem map_eq_forall₂ {α β : Type} {f : α → β} : ∀ {l l' : List α},
    l.map f = l'.map f → List.Forall₂ (fun a b => f a = f b) l l' := by
  intro l
  induction l with
  | nil =>
    intro l' h
    cases l' with
    | nil => exact List.Forall₂.nil
    | cons b bs => simp at h
  | cons a as ih =>
    intro l' h
    cases l' with
    | nil => simp at h
    | cons b bs =>
      simp only [List.map_cons, List.cons.injEq] at h
      exact List.Forall₂.cons h.1 (ih h.2)

theorem forall₂_perm_map_sortFields : ∀ {l l' : Listing},
    List.Forall₂ List.Perm l l' → GoodListing l →
    l.map sortFields = l'.map sortFields := by
  intro l l' hper
  induction hper with
  | nil => intro _; rfl
  | @cons a b l1 l2 hab htail ih =>
    intro hg
    simp only [List.map_cons]
    rw [sortFields_eq_of_perm hab (hg a (by simp)),
      ih (fun it hit => hg it (List.mem_cons_of_mem _ hit))]

/-- C4: the fingerprint is a pure deterministic function of listing
content. With the SHA-256 hex digest idealized as an injective function
`h` (collision resistance), two listing payloads whose item objects have
the unique keys JSON parsing guarantees get the same digest exactly when
they are the same array of items up to reordering of keys inside each
item object: permuting only key order preserves the digest, and any
difference in any item's fields or in the array order of items changes
it. -/
theorem c4_fingerprint (h : String → String) (hinj : Function.Injective h)
    (l l' : Listing) (hl : GoodListing l) :
    fingerprint h l = fingerprint h l' ↔ List.Forall₂ List.Perm l l' := by
  constructor
  · intro he
    exact (map_eq_forall₂ (dumpsListing_inj (hinj he))).imp
      (fun a b hab => sortFields_perm_of_eq hab)
  · intro hper
    unfold fingerprint dumpsListing dumpsListingL
    rw [forall₂_perm_map_sortFields hper hl]

/-- Witness for C4: a concrete two-field item with its keys permuted
produces the same fingerprint. -/
theorem c4_fingerprint_witness :
    fingerprint id [[("name", Prim.str "App_1.0"),
                     ("mod_time", Prim.str "2024-01-01T00:00:00Z")]] =
    fingerprint id [[("mod_time", Prim.str "2024-01-01T00:00:00Z"),
                     ("name", Prim.str "App_1.0")]] :=
  (c4_fingerprint id (fun _ _ hh => hh) _ _ (by unfold GoodListing; decide)).mpr
    (List.Forall₂.cons (List.Perm.swap _ _ _) List.Forall₂.nil)

/-! ### The latest-version selector -/

theorem charListLt_tt_of_ff_tt {a b c : List Char} (h1 : charListLt a b = false)
    (h2 : charListLt a c = true) : charListLt b c = true := by
  cases h3 : charListLt b c with
  | true => rfl
  | false =>
    have h4 := charListLt_ff_trans h1 h3
    rw [h4] at h2
    exact absurd h2 (by decide)

theorem charListLt_tt_of_tt_ff {a b c : List Char} (h1 : charListLt a b = true)
    (h2 : charListLt c b = false) : charListLt a c = true := by
  cases h3 : charListLt a c with
  | true => rfl
  | false =>
    have h4 := charListLt_ff_trans h3 h2
    rw [h4] at h1
    exact absurd h1 (by decide)

theorem foldl_maxStep_ge : ∀ (ys : List Item) (x : Item),
    charListLt (modTimeStr (ys.foldl maxStep x)).data (modTimeStr x).data = false := by
  intro ys
  induction ys with
  | nil => intro x; exact charListLt_irrefl _
  | cons y ys2 ih =>
    intro x
    rw [List.foldl_cons]
    have hstep : charListLt (modTimeStr (maxStep x y)).data (modTimeStr x).data = false := by
      unfold maxStep
      split_ifs with hc
      · exact charListLt_asymm hc
      · exact charListLt_irrefl _
    exact charListLt_ff_trans (ih (maxStep x y)) hstep

theorem foldl_maxStep_split : ∀ (xs : List Item) (x : Item),
    ∃ l1 l2, x :: xs = l1 ++ (xs.foldl maxStep x) :: l2 ∧
      (∀ y ∈ l1, charListLt (modTimeStr y).data
        (modTimeStr (xs.foldl maxStep x)).data = true) ∧
      (∀ y ∈ l2, charListLt (modTimeStr (xs.foldl maxStep x)).data
        (modTimeStr y).data = false) := by
  intro xs
  induction xs with
  | nil =>
    intro x
    exact ⟨[], [], rfl, by simp, by simp⟩
  | cons y ys ih =>
    intro x
    rw [List.foldl_cons]
    by_cases hlt : charListLt (modTimeStr x).data (modTimeStr y).data = true
    · have hstep : maxStep x y = y := by unfold maxStep; rw [if_pos hlt]
      rw [hstep]
      obtain ⟨l1, l2, hdec, hbef, haft⟩ := ih y
      refine ⟨x :: l1, l2, ?_, ?_, haft⟩
      · rw [List.cons_append, ← hdec]
      · intro z hz
        rcases List.mem_cons.mp hz with hz | hz
        · rw [hz]
          exact charListLt_tt_of_tt_ff hlt (foldl_maxStep_ge ys y)
        · exact hbef z hz
    · have hltf : charListLt (modTimeStr x).data (modTimeStr y).data = false := by
        cases hc : charListLt (modTimeStr x).data (modTimeStr y).data with
        | true => exact absurd hc hlt
        | false => rfl
      have hstep : maxStep x y = x := by unfold maxStep; rw [if_neg (by rw [hltf]; decide)]
      rw [hstep]
      obtain ⟨l1, l2, hdec, hbef, haft⟩ := ih x
      cases l1 with
      | nil =>
        rw [List.nil_append] at hdec
        have hm : ys.foldl maxStep x = x := (List.cons.injEq _ _ _ _).mp hdec |>.1.symm
        have hl2 : l2 = ys := ((List.cons.injEq _ _ _ _).mp hdec).2.symm
        refine ⟨[], y :: l2, ?_, by simp, ?_⟩
        · rw [List.nil_append, hl2, hm]
        · intro z hz
          rcases List.mem_cons.mp hz with hz | hz
          · rw [hz, hm, hltf]
          · exact haft z hz
      | cons a l1' =>
        rw [List.cons_append] at hdec
        have ha : a = x := ((List.cons.injEq _ _ _ _).mp hdec).1.symm
        have hys : ys = l1' ++ (ys.foldl maxStep x) :: l2 :=
          ((List.cons.injEq _ _ _ _).mp hdec).2
        have hxm : charListLt (modTimeStr x).data
            (modTimeStr (ys.foldl maxStep x)).data = true := by
          have := hbef a (by simp)
          rwa [ha] at this
        refine ⟨x :: y :: l1', l2, ?_, ?_, haft⟩
        · rw [List.cons_append, List.cons_append, ← hys]
        · intro z hz
          rcases List.mem_cons.mp hz with hz | hz
          · rw [hz]; exact hxm
          · rcases List.mem_cons.mp hz with hz2 | hz2
            · rw [hz2]
              exact charListLt_tt_of_ff_tt hltf hxm
            · exact hbef z (List.mem_cons_of_mem _ hz2)

/-- C5 counterexample: the claim says the selector returns the item whose
`mod_time` is chronologically maximal as an ISO-8601 point in time. On a
listing with mixed UTC offsets the source's raw string `max` returns item
A ("…23:00:00+09:00", i.e. 14:00 UTC) although item B ("…20:00:00Z",
20:00 UTC), also in the listing, is chronologically later: A's timestamp
is chronologically strictly before B's. -/
theorem c5_counterexample :
    get_latest_version
        [[("name", Prim.str "A"), ("mod_time", Prim.str "2024-01-01T23:00:00+09:00")],
         [("name", Prim.str "B"), ("mod_time", Prim.str "2024-01-01T20:00:00Z")]] =
      some [("name", Prim.str "A"), ("mod_time", Prim.str "2024-01-01T23:00:00+09:00")] ∧
    [("name", Prim.str "B"), ("mod_time", Prim.str "2024-01-01T20:00:00Z")] ∈
      ([[("name", Prim.str "A"), ("mod_time", Prim.str "2024-01-01T23:00:00+09:00")],
        [("name", Prim.str "B"), ("mod_time", Prim.str "2024-01-01T20:00:00Z")]] : Listing) ∧
    specChronoLt
      (modTimeStr [("name", Prim.str "A"), ("mod_time", Prim.str "2024-01-01T23:00:00+09:00")])
      (modTimeStr [("name", Prim.str "B"), ("mod_time", Prim.str "2024-01-01T20:00:00Z")]) =
      true := by
  refine ⟨by decide, by decide, by decide⟩

/-- C5 (amended): `get_latest_version` returns `None` for an empty
listing; for every non-empty listing (of items carrying string
`mod_time` fields) it returns the first item in listing order whose
`mod_time` string is maximal under raw code-point string comparison —
every earlier item is strictly string-smaller and no later item is
string-greater. This coincides with chronological ISO-8601 order only
when the timestamps share a fixed-width, zero-padded format with one
common UTC offset. -/
theorem c5_latest_amended (l : Listing) (x : Item) (xs : List Item)
    (hl : l = x :: xs) (ht : GoodTimes l) :
    get_latest_version ([] : Listing) = none ∧
    ∃ m l1 l2, get_latest_version l = some m ∧ l = l1 ++ m :: l2 ∧
      (∀ y ∈ l1, charListLt (modTimeStr y).data (modTimeStr m).data = true) ∧
      (∀ y ∈ l2, charListLt (modTimeStr m).data (modTimeStr y).data = false) := by
  subst hl
  obtain ⟨l1, l2, hdec, hbef, haft⟩ := foldl_maxStep_split xs x
  exact ⟨rfl, xs.foldl maxStep x, l1, l2, rfl, hdec, hbef, haft⟩

/-- Witness for C5 (amended), at a concrete two-item listing. -/
theorem c5_latest_amended_witness :
    get_latest_version ([] : Listing) = none ∧
    ∃ m l1 l2,
      get_latest_version
          [[("name", Prim.str "A"), ("mod_time", Prim.str "2024-01-01T00:00:00Z")],
           [("name", Prim.str "B"), ("mod_time", Prim.str "2024-02-01T00:00:00Z")]] =
        some m ∧
      [[("name", Prim.str "A"), ("mod_time", Prim.str "2024-01-01T00:00:00Z")],
       [("name", Prim.str "B"), ("mod_time", Prim.str "2024-02-01T00:00:00Z")]] =
        l1 ++ m :: l2 ∧
      (∀ y ∈ l1, charListLt (modTimeStr y).data (modTimeStr m).data = true) ∧
      (∀ y ∈ l2, charListLt (modTimeStr m).data (modTimeStr y).data = false) :=
  c5_latest_amended _ _ _ rfl (by unfold GoodTimes; decide)

/-! ### The dispatch fan-out loop -/

theorem dispatch_foldl_succ (net : Target → String → Bool → Option Nat)
    (skip : List String) (url : String) (istf : Bool) :
    ∀ (ts : List Target) (acc : List String × List String × List String)
      (x : String),
    x ∈ (ts.foldl (dispatchStep net skip url istf) acc).1 ↔
      x ∈ acc.1 ∨ ∃ t ∈ ts, t.github_repo = x ∧
        (x ∈ skip ∨ net t url istf = some 204) := by
  intro ts
  induction ts with
  | nil => intro acc x; simp
  | cons u us ih =>
    intro acc x
    rw [List.foldl_cons, ih]
    unfold dispatchStep
    split_ifs with h1 h2
    · simp only [List.mem_append, List.mem_singleton, List.mem_cons, List.not_mem_nil,
        or_false]
      constructor
      · rintro ((hx | hx) | ⟨t, ht, hrt, hc⟩)
        · exact Or.inl hx
        · exact Or.inr ⟨u, Or.inl rfl, hx.symm, Or.inl (by rw [hx]; exact h1)⟩
        · exact Or.inr ⟨t, Or.inr ht, hrt, hc⟩
      · rintro (hx | ⟨t, ht | ht, hrt, hc⟩)
        · exact Or.inl (Or.inl hx)
        · exact Or.inl (Or.inr (by rw [← hrt, ht]))
        · exact Or.inr ⟨t, ht, hrt, hc⟩
    · simp only [List.mem_append, List.mem_singleton, List.mem_cons, List.not_mem_nil,
        or_false]
      constructor
      · rintro ((hx | hx) | ⟨t, ht, hrt, hc⟩)
        · exact Or.inl hx
        · exact Or.inr ⟨u, Or.inl rfl, hx.symm, Or.inr h2⟩
        · exact Or.inr ⟨t, Or.inr ht, hrt, hc⟩
      · rintro (hx | ⟨t, ht | ht, hrt, hc⟩)
        · exact Or.inl (Or.inl hx)
        · exact Or.inl (Or.inr (by rw [← hrt, ht]))
        · exact Or.inr ⟨t, ht, hrt, hc⟩
    · simp only [List.mem_cons]
      constructor
      · rintro (hx | ⟨t, ht, hrt, hc⟩)
        · exact Or.inl hx
        · exact Or.inr ⟨t, Or.inr ht, hrt, hc⟩
      · rintro (hx | ⟨t, ht | ht, hrt, hc⟩)
        · exact Or.inl hx
        · exfalso
          rcases hc with hc | hc
          · have hxu : x = u.github_repo := by rw [← hrt, ht]
            exact h1 (by rwa [hxu] at hc)
          · rw [ht] at hc
            exact h2 hc
        · exact Or.inr ⟨t, ht, hrt, hc⟩

theorem dispatch_foldl_fail (net : Target → String → Bool → Option Nat)
    (skip : List String) (url : String) (istf : Bool) :
    ∀ (ts : List Target) (acc : List String × List String × List String)
      (x : String),
    x ∈ (ts.foldl (dispatchStep net skip url istf) acc).2.1 ↔
      x ∈ acc.2.1 ∨ ∃ t ∈ ts, t.github_repo = x ∧
        (x ∉ skip ∧ net t url istf ≠ some 204) := by
  intro ts
  induction ts with
  | nil => intro acc x; simp
  | cons u us ih =>
    intro acc x
    rw [List.foldl_cons, ih]
    unfold dispatchStep
    split_ifs with h1 h2
    · simp only [List.mem_cons]
      constructor
      · rintro (hx | ⟨t, ht, hrt, hc⟩)
        · exact Or.inl hx
        · exact Or.inr ⟨t, Or.inr ht, hrt, hc⟩
      · rintro (hx | ⟨t, ht | ht, hrt, hc⟩)
        · exact Or.inl hx
        · exfalso
          have hxu : x = u.github_repo := by rw [← hrt, ht]
          exact hc.1 (by rw [hxu]; exact h1)
        · exact Or.inr ⟨t, ht, hrt, hc⟩
    · simp only [List.mem_cons]
      constructor
      · rintro (hx | ⟨t, ht, hrt, hc⟩)
        · exact Or.inl hx
        · exact Or.inr ⟨t, Or.inr ht, hrt, hc⟩
      · rintro (hx | ⟨t, ht | ht, hrt, hc⟩)
        · exact Or.inl hx
        · exfalso
          rw [ht] at hc
          exact hc.2 h2
        · exact Or.inr ⟨t, ht, hrt, hc⟩
    · simp only [List.mem_append, List.mem_singleton, List.mem_cons, List.not_mem_nil,
        or_false]
      constructor
      · rintro ((hx | hx) | ⟨t, ht, hrt, hc⟩)
        · exact Or.inl hx
        · exact Or.inr ⟨u, Or.inl rfl, hx.symm, ⟨by rw [hx]; exact h1, h2⟩⟩
        · exact Or.inr ⟨t, Or.inr ht, hrt, hc⟩
      · rintro (hx | ⟨t, ht | ht, hrt, hc⟩)
        · exact Or.inl (Or.inl hx)
        · exact Or.inl (Or.inr (by rw [← hrt, ht]))
        · exact Or.inr ⟨t, ht, hrt, hc⟩

theorem dispatch_foldl_calls (net : Target → String → Bool → Option Nat)
    (skip : List String) (url : String) (istf : Bool) :
    ∀ (ts : List Target) (acc : List String × List String × List String)
      (x : String),
    x ∈ (ts.foldl (dispatchStep net skip url istf) acc).2.2 ↔
      x ∈ acc.2.2 ∨ ∃ t ∈ ts, t.github_repo = x ∧ x ∉ skip := by
  intro ts
  induction ts with
  | nil => intro acc x; simp
  | cons u us ih =>
    intro acc x
    rw [List.foldl_cons, ih]
    unfold dispatchStep
    split_ifs with h1 h2
    · simp only [List.mem_cons]
      constructor
      · rintro (hx | ⟨t, ht, hrt, hc⟩)
        · exact Or.inl hx
        · exact Or.inr ⟨t, Or.inr ht, hrt, hc⟩
      · rintro (hx | ⟨t, ht | ht, hrt, hc⟩)
        · exact Or.inl hx
        · exfalso
          have hxu : x = u.github_repo := by rw [← hrt, ht]
          exact hc (by rw [hxu]; exact h1)
        · exact Or.inr ⟨t, ht, hrt, hc⟩
    · simp only [List.mem_append, List.mem_singleton, List.mem_cons, List.not_mem_nil,
        or_false]
      constructor
      · rintro ((hx | hx) | ⟨t, ht, hrt, hc⟩)
        · exact Or.inl hx
        · exact Or.inr ⟨u, Or.inl rfl, hx.symm, by rw [hx]; exact h1⟩
        · exact Or.inr ⟨t, Or.inr ht, hrt, hc⟩
      · rintro (hx | ⟨t, ht | ht, hrt, hc⟩)
        · exact Or.inl (Or.inl hx)
        · exact Or.inl (Or.inr (by rw [← hrt, ht]))
        · exact Or.inr ⟨t, ht, hrt, hc⟩
    · simp only [List.mem_append, List.mem_singleton, List.mem_cons, List.not_mem_nil,
        or_false]
      constructor
      · rintro ((hx | hx) | ⟨t, ht, hrt, hc⟩)
        · exact Or.inl hx
        · exact Or.inr ⟨u, Or.inl rfl, hx.symm, by rw [hx]; exact h1⟩
        · exact Or.inr ⟨t, Or.inr ht, hrt, hc⟩
      · rintro (hx | ⟨t, ht | ht, hrt, hc⟩)
        · exact Or.inl (Or.inl hx)
        · exact Or.inl (Or.inr (by rw [← hrt, ht]))
        · exact Or.inr ⟨t, ht, hrt, hc⟩

theorem dispatch_succ_iff (targets : List Target)
    (net : Target → String → Bool → Option Nat)
    (dispatches : List (String × List String)) (url branch hsh x : String) :
    x ∈ (dispatch_github_workflow targets net dispatches url branch hsh).1.successful ↔
      ∃ t ∈ targets, t.github_repo = x ∧
        (x ∈ lookupList dispatches hsh ∨
         net t url (branch == "testflight") = some 204) := by
  simp only [dispatch_github_workflow]
  rw [dispatch_foldl_succ]
  simp

theorem dispatch_fail_iff (targets : List Target)
    (net : Target → String → Bool → Option Nat)
    (dispatches : List (String × List String)) (url branch hsh x : String) :
    x ∈ (dispatch_github_workflow targets net dispatches url branch hsh).1.failed ↔
      ∃ t ∈ targets, t.github_repo = x ∧
        (x ∉ lookupList dispatches hsh ∧
         net t url (branch == "testflight") ≠ some 204) := by
  simp only [dispatch_github_workflow]
  rw [dispatch_foldl_fail]
  simp

theorem dispatch_calls_iff (targets : List Target)
    (net : Target → String → Bool → Option Nat)
    (dispatches : List (String × List String)) (url branch hsh x : String) :
    x ∈ (dispatch_github_workflow targets net dispatches url branch hsh).2 ↔
      ∃ t ∈ targets, t.github_repo = x ∧ x ∉ lookupList dispatches hsh := by
  simp only [dispatch_github_workflow]
  rw [dispatch_foldl_calls]
  simp

/-- C6: idempotent skip. For every fingerprint, configured target list
and already-notified set, a target whose repository is already recorded
under the current fingerprint is reported in the `successful` set of the
fan-out result without any dispatch POST being issued for it. -/
theorem c6_idempotent_skip (targets : List Target)
    (net : Target → String → Bool → Option Nat)
    (dispatches : List (String × List String)) (url branch hsh : String)
    (t : Target) (ht : t ∈ targets)
    (hskip : t.github_repo ∈ lookupList dispatches hsh) :
    t.github_repo ∈
      (dispatch_github_workflow targets net dispatches url branch hsh).1.successful ∧
    t.github_repo ∉
      (dispatch_github_workflow targets net dispatches url branch hsh).2 := by
  constructor
  · exact (dispatch_succ_iff targets net dispatches url branch hsh
      t.github_repo).mpr ⟨t, ht, rfl, Or.inl hskip⟩
  · intro hc
    obtain ⟨t2, _, _, hns⟩ := (dispatch_calls_iff targets net dispatches url
      branch hsh t.github_repo).mp hc
    exact hns hskip

/-- Witness for C6 at a concrete input: a single target already recorded
under the fingerprint is skipped (no POST) yet reported successful. -/
theorem c6_idempotent_skip_witness :
    "octo/a" ∈
      (dispatch_github_workflow [⟨"octo/a", "tok"⟩] (fun _ _ _ => some 500)
        [("F1", ["octo/a"])] "u" "stable" "F1").1.successful ∧
    "octo/a" ∉
      (dispatch_github_workflow [⟨"octo/a", "tok"⟩] (fun _ _ _ => some 500)
        [("F1", ["octo/a"])] "u" "stable" "F1").2 :=
  c6_idempotent_skip [⟨"octo/a", "tok"⟩] (fun _ _ _ => some 500)
    [("F1", ["octo/a"])] "u" "stable" "F1" ⟨"octo/a", "tok"⟩ (by decide)
    (by decide)

/-- C7 counterexample: the claim says every configured target's
identifier appears in exactly one of the succeeded or failed sets. Each
target's POST carries its own token in the `Authorization` header, so
two configured targets that share the repository identifier "octo/a" but
hold different tokens get independent POSTs with independent outcomes
(HTTP 204 for the first token, HTTP 401 for the second); the single
identifier "octo/a" then appears in the succeeded set and in the failed
set at once. -/
theorem c7_counterexample :
    "octo/a" ∈
      (dispatch_github_workflow [⟨"octo/a", "t1"⟩, ⟨"octo/a", "t2"⟩]
        (fun t _ _ => if t.github_token == "t1" then some 204 else some 401)
        [] "u" "stable" "F1").1.successful ∧
    "octo/a" ∈
      (dispatch_github_workflow [⟨"octo/a", "t1"⟩, ⟨"octo/a", "t2"⟩]
        (fun t _ _ => if t.github_token == "t1" then some 204 else some 401)
        [] "u" "stable" "F1").1.failed := by
  refine ⟨by decide, by decide⟩

/-- C7 (amended): the fan-out is total (it never propagates a per-target
failure — an exception or error status is the oracle value `none`/non-204
and the loop still produces a result) and attempts every non-skipped
target no matter what happened to earlier ones; and provided the
configured targets carry pairwise-distinct repository identifiers, every
configured target's identifier lands in exactly one of the `successful`
or `failed` sets. (With duplicate repositories under different tokens
the same identifier can land in both sets, since each target's POST is
authorized by its own token and succeeds or fails on its own.) -/
theorem c7_fanout_partition (targets : List Target)
    (net : Target → String → Bool → Option Nat)
    (dispatches : List (String × List String)) (url branch hsh : String)
    (hnodup : (targets.map Target.github_repo).Nodup)
    (t : Target) (ht : t ∈ targets) :
    ((t.github_repo ∈
        (dispatch_github_workflow targets net dispatches url branch hsh).1.successful ∧
      t.github_repo ∉
        (dispatch_github_workflow targets net dispatches url branch hsh).1.failed) ∨
     (t.github_repo ∈
        (dispatch_github_workflow targets net dispatches url branch hsh).1.failed ∧
      t.github_repo ∉
        (dispatch_github_workflow targets net dispatches url branch hsh).1.successful)) ∧
    (t.github_repo ∉ lookupList dispatches hsh →
      t.github_repo ∈ (dispatch_github_workflow targets net dispatches url branch hsh).2) := by
  have huniq : ∀ t2 ∈ targets, t2.github_repo = t.github_repo → t2 = t :=
    fun t2 ht2 he => List.inj_on_of_nodup_map hnodup ht2 ht he
  constructor
  · by_cases hcond : t.github_repo ∈ lookupList dispatches hsh ∨
        net t url (branch == "testflight") = some 204
    · refine Or.inl ⟨(dispatch_succ_iff targets net dispatches url branch hsh
        t.github_repo).mpr ⟨t, ht, rfl, hcond⟩, ?_⟩
      intro hc
      obtain ⟨t2, ht2, hrt2, hns, hnok⟩ := (dispatch_fail_iff targets net dispatches
        url branch hsh t.github_repo).mp hc
      rcases hcond with hcond | hcond
      · exact hns hcond
      · rw [huniq t2 ht2 hrt2] at hnok
        exact hnok hcond
    · push_neg at hcond
      refine Or.inr ⟨(dispatch_fail_iff targets net dispatches url branch hsh
        t.github_repo).mpr ⟨t, ht, rfl, hcond.1, hcond.2⟩, ?_⟩
      intro hc
      obtain ⟨t2, ht2, hrt2, hc2⟩ := (dispatch_succ_iff targets net dispatches url
        branch hsh t.github_repo).mp hc
      rcases hc2 with hc2 | hc2
      · exact hcond.1 hc2
      · rw [huniq t2 ht2 hrt2] at hc2
        exact hcond.2 hc2
  · intro hns
    exact (dispatch_calls_iff targets net dispatches url branch hsh
      t.github_repo).mpr ⟨t, ht, rfl, hns⟩

/-- Witness for C7 (amended) at a concrete input: two distinct-repository
targets where the first POST fails; the second target is still attempted
and its repository lands in exactly one of the two sets. -/
theorem c7_fanout_partition_witness :
    (("octo/b" ∈
        (dispatch_github_workflow [⟨"octo/a", "t1"⟩, ⟨"octo/b", "t2"⟩]
          (fun t _ _ => if t.github_repo == "octo/a" then some 500 else some 204)
          [] "u" "stable" "F1").1.successful ∧
      "octo/b" ∉
        (dispatch_github_workflow [⟨"octo/a", "t1"⟩, ⟨"octo/b", "t2"⟩]
          (fun t _ _ => if t.github_repo == "octo/a" then some 500 else some 204)
          [] "u" "stable" "F1").1.failed) ∨
     ("octo/b" ∈
        (dispatch_github_workflow [⟨"octo/a", "t1"⟩, ⟨"octo/b", "t2"⟩]
          (fun t _ _ => if t.github_repo == "octo/a" then some 500 else some 204)
          [] "u" "stable" "F1").1.failed ∧
      "octo/b" ∉
        (dispatch_github_workflow [⟨"octo/a", "t1"⟩, ⟨"octo/b", "t2"⟩]
          (fun t _ _ => if t.github_repo == "octo/a" then some 500 else some 204)
          [] "u" "stable" "F1").1.successful)) ∧
    ("octo/b" ∉ lookupList [] "F1" →
      "octo/b" ∈
        (dispatch_github_workflow [⟨"octo/a", "t1"⟩, ⟨"octo/b", "t2"⟩]
          (fun t _ _ => if t.github_repo == "octo/a" then some 500 else some 204)
          [] "u" "stable" "F1").2) :=
  c7_fanout_partition [⟨"octo/a", "t1"⟩, ⟨"octo/b", "t2"⟩]
    (fun t _ _ => if t.github_repo == "octo/a" then some 500 else some 204)
    [] "u" "stable" "F1" (by decide) ⟨"octo/b", "t2"⟩ (by decide)

/-! ### The per-channel tick -/

theorem ensureBranch_of_mem {mem : DState} {branch : String} {e : BranchEntry}
    (hentry : lookupAssoc mem branch = some e) : ensureBranch mem branch = mem := by
  unfold ensureBranch
  rw [hentry]

theorem check_branch_changed (targets : List Target) (base_url : String)
    (mock : Option String) (branch : String) (resp : Response)
    (net : Target → String → Bool → Option Nat) (saveOk : Bool)
    (h : String → String) (mem disk : DState) (stored : Option String)
    (disp : List (String × List String)) (data : Listing) (F : String)
    (latest : Item)
    (hentry : lookupAssoc mem branch = some (BranchEntry.entry stored disp))
    (hfetch : fetch_ipa_list mock branch resp h = some (data, F))
    (hchanged : stored ≠ some F)
    (hlatest : get_latest_version data = some latest) :
    check_branch targets base_url mock branch resp net saveOk h mem disk =
      if (dispatch_github_workflow targets net disp (mkUrl base_url branch latest)
            branch F).1.successful.isEmpty then
        ⟨mem, disk,
         (dispatch_github_workflow targets net disp (mkUrl base_url branch latest)
           branch F).2,
         some (dispatch_github_workflow targets net disp
           (mkUrl base_url branch latest) branch F).1, true⟩
      else if saveOk then
        ⟨setAssoc mem branch (BranchEntry.entry (some F)
           (updateDisp disp F (dispatch_github_workflow targets net disp
             (mkUrl base_url branch latest) branch F).1.successful)),
         setAssoc mem branch (BranchEntry.entry (some F)
           (updateDisp disp F (dispatch_github_workflow targets net disp
             (mkUrl base_url branch latest) branch F).1.successful)),
         (dispatch_github_workflow targets net disp (mkUrl base_url branch latest)
           branch F).2,
         some (dispatch_github_workflow targets net disp
           (mkUrl base_url branch latest) branch F).1, true⟩
      else
        ⟨setAssoc mem branch (BranchEntry.entry (some F)
           (updateDisp disp F (dispatch_github_workflow targets net disp
             (mkUrl base_url branch latest) branch F).1.successful)),
         disk,
         (dispatch_github_workflow targets net disp (mkUrl base_url branch latest)
           branch F).2,
         some (dispatch_github_workflow targets net disp
           (mkUrl base_url branch latest) branch F).1, false⟩ := by
  have he : ensureBranch mem branch = mem := ensureBranch_of_mem hentry
  simp only [check_branch, hfetch, he, hentry, hlatest]
  rw [if_neg hchanged]

theorem check_branch_unchanged (targets : List Target) (base_url : String)
    (mock : Option String) (branch : String) (resp : Response)
    (net : Target → String → Bool → Option Nat) (saveOk : Bool)
    (h : String → String) (mem disk : DState) (stored : Option String)
    (disp : List (String × List String)) (data : Listing) (F : String)
    (hentry : lookupAssoc mem branch = some (BranchEntry.entry stored disp))
    (hfetch : fetch_ipa_list mock branch resp h = some (data, F))
    (hsame : stored = some F) :
    check_branch targets base_url mock branch resp net saveOk h mem disk =
      ⟨mem, disk, [], none, true⟩ := by
  have he : ensureBranch mem branch = mem := ensureBranch_of_mem hentry
  simp only [check_branch, hfetch, he, hentry]
  rw [if_pos hsame]

/-- C2: on a tick that observes a changed fingerprint (and whose fan-out
ran), the channel's stored hash and dispatches mapping are updated in
memory exactly when the fan-out reports at least one successful target:
with zero successes the tick leaves the in-memory and on-disk state
exactly as they were, so the whole change is retried in full next tick;
with at least one success the entry becomes the new fingerprint together
with the merged successful-recipient set (persisted when the write
succeeds). -/
theorem c2_state_advance (targets : List Target) (base_url : String)
    (mock : Option String) (branch : String) (resp : Response)
    (net : Target → String → Bool → Option Nat) (saveOk : Bool)
    (h : String → String) (mem disk : DState) (stored : Option String)
    (disp : List (String × List String)) (data : Listing) (F : String)
    (latest : Item)
    (hentry : lookupAssoc mem branch = some (BranchEntry.entry stored disp))
    (hfetch : fetch_ipa_list mock branch resp h = some (data, F))
    (hchanged : stored ≠ some F)
    (hlatest : get_latest_version data = some latest) :
    ((dispatch_github_workflow targets net disp (mkUrl base_url branch latest)
        branch F).1.successful = [] →
      check_branch targets base_url mock branch resp net saveOk h mem disk =
        ⟨mem, disk,
         (dispatch_github_workflow targets net disp (mkUrl base_url branch latest)
           branch F).2,
         some (dispatch_github_workflow targets net disp
           (mkUrl base_url branch latest) branch F).1, true⟩) ∧
    ((dispatch_github_workflow targets net disp (mkUrl base_url branch latest)
        branch F).1.successful ≠ [] →
      (check_branch targets base_url mock branch resp net saveOk h mem disk).mem =
        setAssoc mem branch (BranchEntry.entry (some F)
          (updateDisp disp F (dispatch_github_workflow targets net disp
            (mkUrl base_url branch latest) branch F).1.successful)) ∧
      (saveOk = true →
        (check_branch targets base_url mock branch resp net saveOk h mem disk).disk =
        (check_branch targets base_url mock branch resp net saveOk h mem disk).mem) ∧
      (saveOk = false →
        (check_branch targets base_url mock branch resp net saveOk h mem disk).disk =
          disk)) := by
  rw [check_branch_changed targets base_url mock branch resp net saveOk h mem disk
    stored disp data F latest hentry hfetch hchanged hlatest]
  constructor
  · intro hempty
    rw [if_pos (by rw [hempty]; rfl)]
  · intro hne
    have hni : ¬((dispatch_github_workflow targets net disp
        (mkUrl base_url branch latest) branch F).1.successful.isEmpty = true) := by
      intro hc
      exact hne (List.isEmpty_iff.mp hc)
    rw [if_neg hni]
    cases saveOk with
    | true =>
      rw [if_pos rfl]
      exact ⟨rfl, fun _ => rfl, fun hc => Bool.noConfusion hc⟩
    | false =>
      rw [if_neg (by decide)]
      exact ⟨rfl, fun hc => Bool.noConfusion hc, fun _ => rfl⟩

/-- Witness for C2 at a concrete changed tick with one succeeding
target: the in-memory entry advances to the new fingerprint with the
successful repository merged in. -/
theorem c2_state_advance_witness :
    (check_branch [⟨"octo/a", "t"⟩] "https://b" none "stable"
      ⟨200, some [[("name", Prim.str "A.ipa"),
                   ("mod_time", Prim.str "2024-01-01T00:00:00Z")]]⟩
      (fun _ _ _ => some 204) true id
      [("stable", BranchEntry.entry (some "old") []),
       ("testflight", BranchEntry.entry none [])] []).mem =
    setAssoc
      [("stable", BranchEntry.entry (some "old") []),
       ("testflight", BranchEntry.entry none [])] "stable"
      (BranchEntry.entry
        (some (fingerprint id [[("name", Prim.str "A.ipa"),
                                ("mod_time", Prim.str "2024-01-01T00:00:00Z")]]))
        (updateDisp []
          (fingerprint id [[("name", Prim.str "A.ipa"),
                            ("mod_time", Prim.str "2024-01-01T00:00:00Z")]])
          (dispatch_github_workflow [⟨"octo/a", "t"⟩] (fun _ _ _ => some 204) []
            (mkUrl "https://b" "stable"
              [("name", Prim.str "A.ipa"),
               ("mod_time", Prim.str "2024-01-01T00:00:00Z")])
            "stable"
            (fingerprint id [[("name", Prim.str "A.ipa"),
                              ("mod_time", Prim.str "2024-01-01T00:00:00Z")]])).1.successful)) :=
  ((c2_state_advance [⟨"octo/a", "t"⟩] "https://b" none "stable"
      ⟨200, some [[("name", Prim.str "A.ipa"),
                   ("mod_time", Prim.str "2024-01-01T00:00:00Z")]]⟩
      (fun _ _ _ => some 204) true id
      [("stable", BranchEntry.entry (some "old") []),
       ("testflight", BranchEntry.entry none [])] []
      (some "old") []
      [[("name", Prim.str "A.ipa"), ("mod_time", Prim.str "2024-01-01T00:00:00Z")]]
      (fingerprint id [[("name", Prim.str "A.ipa"),
                        ("mod_time", Prim.str "2024-01-01T00:00:00Z")]])
      [("name", Prim.str "A.ipa"), ("mod_time", Prim.str "2024-01-01T00:00:00Z")]
      rfl rfl (by decide) rfl).2 (by decide)).1

theorem lookup_setAssoc_self {α : Type} (st : List (String × α)) (k : String)
    (v : α) : lookupAssoc (setAssoc st k v) k = some v := by
  induction st with
  | nil => simp [setAssoc, lookupAssoc]
  | cons p rest ih =>
    obtain ⟨k2, v2⟩ := p
    unfold setAssoc
    by_cases hc : (k2 == k) = true
    · rw [if_pos hc]
      simp [lookupAssoc]
    · rw [if_neg hc]
      unfold lookupAssoc at ih ⊢
      rw [List.find?_cons_of_neg _ (by simpa using hc)]
      exact ih

theorem mem_updateDisp (disp : List (String × List String)) (F s : String)
    (succ : List String) (hs : s ∈ succ) :
    s ∈ lookupList (updateDisp disp F succ) F := by
  unfold updateDisp lookupList
  rw [lookup_setAssoc_self]
  simp only [Option.getD_some, List.mem_dedup, List.mem_append]
  exact Or.inr hs

/-- C1 (amended): after a tick whose fan-out reports some targets
succeeded and some failed (with the state write succeeding), the
persisted channel state records the succeeded repositories under the new
fingerprint F — but it also advances the stored hash to F, so a
subsequent tick whose fetched listing (hence fingerprint) is unchanged
detects no change and attempts no dispatch calls at all: the
previously-failed targets are not retried while the upstream content
stays at F. -/
theorem c1_partial_failure_amended (targets : List Target) (base_url : String)
    (mock : Option String) (branch : String) (resp : Response)
    (net : Target → String → Bool → Option Nat)
    (h : String → String) (mem disk : DState) (stored : Option String)
    (disp : List (String × List String)) (data : Listing) (F : String)
    (latest : Item) (saveOk2 : Bool)
    (hentry : lookupAssoc mem branch = some (BranchEntry.entry stored disp))
    (hfetch : fetch_ipa_list mock branch resp h = some (data, F))
    (hchanged : stored ≠ some F)
    (hlatest : get_latest_version data = some latest)
    (hsucc : (dispatch_github_workflow targets net disp
      (mkUrl base_url branch latest) branch F).1.successful ≠ [])
    (hfail : (dispatch_github_workflow targets net disp
      (mkUrl base_url branch latest) branch F).1.failed ≠ []) :
    lookupAssoc (check_branch targets base_url mock branch resp net true h
        mem disk).mem branch =
      some (BranchEntry.entry (some F)
        (updateDisp disp F (dispatch_github_workflow targets net disp
          (mkUrl base_url branch latest) branch F).1.successful)) ∧
    (∀ s ∈ (dispatch_github_workflow targets net disp
        (mkUrl base_url branch latest) branch F).1.successful,
      s ∈ lookupList (updateDisp disp F (dispatch_github_workflow targets net
        disp (mkUrl base_url branch latest) branch F).1.successful) F) ∧
    (check_branch targets base_url mock branch resp net true h mem disk).disk =
      (check_branch targets base_url mock branch resp net true h mem disk).mem ∧
    check_branch targets base_url mock branch resp net saveOk2 h
        (check_branch targets base_url mock branch resp net true h mem disk).mem
        (check_branch targets base_url mock branch resp net true h mem disk).disk =
      ⟨(check_branch targets base_url mock branch resp net true h mem disk).mem,
       (check_branch targets base_url mock branch resp net true h mem disk).disk,
       [], none, true⟩ := by
  rw [check_branch_changed targets base_url mock branch resp net true h mem disk
    stored disp data F latest hentry hfetch hchanged hlatest]
  have hni : ¬((dispatch_github_workflow targets net disp
      (mkUrl base_url branch latest) branch F).1.successful.isEmpty = true) := by
    intro hc
    exact hsucc (List.isEmpty_iff.mp hc)
  rw [if_neg hni, if_pos rfl]
  refine ⟨lookup_setAssoc_self mem branch _, ?_, rfl, ?_⟩
  · intro s hs
    exact mem_updateDisp disp F s _ hs
  · exact check_branch_unchanged targets base_url mock branch resp net saveOk2 h
      _ _ (some F) _ data F (lookup_setAssoc_self mem branch _) hfetch rfl

/-- Witness for C1 (amended) at a concrete partial-failure tick
(repository a succeeds, repository b fails). -/
theorem c1_partial_failure_amended_witness :
    lookupAssoc (check_branch [⟨"octo/a", "t1"⟩, ⟨"octo/b", "t2"⟩] "https://b"
        none "stable"
        ⟨200, some [[("name", Prim.str "A.ipa"),
                     ("mod_time", Prim.str "2024-01-01T00:00:00Z")]]⟩
        (fun t _ _ => if t.github_repo == "octo/a" then some 204 else some 500) true id
        [("stable", BranchEntry.entry (some "old") [])] []).mem "stable" =
      some (BranchEntry.entry
        (some (fingerprint id [[("name", Prim.str "A.ipa"),
                                ("mod_time", Prim.str "2024-01-01T00:00:00Z")]]))
        (updateDisp []
          (fingerprint id [[("name", Prim.str "A.ipa"),
                            ("mod_time", Prim.str "2024-01-01T00:00:00Z")]])
          (dispatch_github_workflow [⟨"octo/a", "t1"⟩, ⟨"octo/b", "t2"⟩]
            (fun t _ _ => if t.github_repo == "octo/a" then some 204 else some 500) []
            (mkUrl "https://b" "stable"
              [("name", Prim.str "A.ipa"),
               ("mod_time", Prim.str "2024-01-01T00:00:00Z")]) "stable"
            (fingerprint id [[("name", Prim.str "A.ipa"),
                              ("mod_time", Prim.str "2024-01-01T00:00:00Z")]])).1.successful)) ∧
    (∀ s ∈ (dispatch_github_workflow [⟨"octo/a", "t1"⟩, ⟨"octo/b", "t2"⟩]
        (fun t _ _ => if t.github_repo == "octo/a" then some 204 else some 500) []
        (mkUrl "https://b" "stable"
          [("name", Prim.str "A.ipa"),
           ("mod_time", Prim.str "2024-01-01T00:00:00Z")]) "stable"
        (fingerprint id [[("name", Prim.str "A.ipa"),
                          ("mod_time", Prim.str "2024-01-01T00:00:00Z")]])).1.successful,
      s ∈ lookupList (updateDisp []
        (fingerprint id [[("name", Prim.str "A.ipa"),
                          ("mod_time", Prim.str "2024-01-01T00:00:00Z")]])
        (dispatch_github_workflow [⟨"octo/a", "t1"⟩, ⟨"octo/b", "t2"⟩]
          (fun t _ _ => if t.github_repo == "octo/a" then some 204 else some 500) []
          (mkUrl "https://b" "stable"
            [("name", Prim.str "A.ipa"),
             ("mod_time", Prim.str "2024-01-01T00:00:00Z")]) "stable"
          (fingerprint id [[("name", Prim.str "A.ipa"),
                            ("mod_time", Prim.str "2024-01-01T00:00:00Z")]])).1.successful)
        (fingerprint id [[("name", Prim.str "A.ipa"),
                          ("mod_time", Prim.str "2024-01-01T00:00:00Z")]])) ∧
    (check_branch [⟨"octo/a", "t1"⟩, ⟨"octo/b", "t2"⟩] "https://b" none "stable"
        ⟨200, some [[("name", Prim.str "A.ipa"),
                     ("mod_time", Prim.str "2024-01-01T00:00:00Z")]]⟩
        (fun t _ _ => if t.github_repo == "octo/a" then some 204 else some 500) true id
        [("stable", BranchEntry.entry (some "old") [])] []).disk =
      (check_branch [⟨"octo/a", "t1"⟩, ⟨"octo/b", "t2"⟩] "https://b" none "stable"
        ⟨200, some [[("name", Prim.str "A.ipa"),
                     ("mod_time", Prim.str "2024-01-01T00:00:00Z")]]⟩
        (fun t _ _ => if t.github_repo == "octo/a" then some 204 else some 500) true id
        [("stable", BranchEntry.entry (some "old") [])] []).mem ∧
    check_branch [⟨"octo/a", "t1"⟩, ⟨"octo/b", "t2"⟩] "https://b" none "stable"
        ⟨200, some [[("name", Prim.str "A.ipa"),
                     ("mod_time", Prim.str "2024-01-01T00:00:00Z")]]⟩
        (fun t _ _ => if t.github_repo == "octo/a" then some 204 else some 500) true id
        (check_branch [⟨"octo/a", "t1"⟩, ⟨"octo/b", "t2"⟩] "https://b" none "stable"
          ⟨200, some [[("name", Prim.str "A.ipa"),
                       ("mod_time", Prim.str "2024-01-01T00:00:00Z")]]⟩
          (fun t _ _ => if t.github_repo == "octo/a" then some 204 else some 500) true id
          [("stable", BranchEntry.entry (some "old") [])] []).mem
        (check_branch [⟨"octo/a", "t1"⟩, ⟨"octo/b", "t2"⟩] "https://b" none "stable"
          ⟨200, some [[("name", Prim.str "A.ipa"),
                       ("mod_time", Prim.str "2024-01-01T00:00:00Z")]]⟩
          (fun t _ _ => if t.github_repo == "octo/a" then some 204 else some 500) true id
          [("stable", BranchEntry.entry (some "old") [])] []).disk =
      ⟨(check_branch [⟨"octo/a", "t1"⟩, ⟨"octo/b", "t2"⟩] "https://b" none "stable"
          ⟨200, some [[("name", Prim.str "A.ipa"),
                       ("mod_time", Prim.str "2024-01-01T00:00:00Z")]]⟩
          (fun t _ _ => if t.github_repo == "octo/a" then some 204 else some 500) true id
          [("stable", BranchEntry.entry (some "old") [])] []).mem,
       (check_branch [⟨"octo/a", "t1"⟩, ⟨"octo/b", "t2"⟩] "https://b" none "stable"
          ⟨200, some [[("name", Prim.str "A.ipa"),
                       ("mod_time", Prim.str "2024-01-01T00:00:00Z")]]⟩
          (fun t _ _ => if t.github_repo == "octo/a" then some 204 else some 500) true id
          [("stable", BranchEntry.entry (some "old") [])] []).disk,
       [], none, true⟩ :=
  c1_partial_failure_amended [⟨"octo/a", "t1"⟩, ⟨"octo/b", "t2"⟩] "https://b"
    none "stable"
    ⟨200, some [[("name", Prim.str "A.ipa"),
                 ("mod_time", Prim.str "2024-01-01T00:00:00Z")]]⟩
    (fun t _ _ => if t.github_repo == "octo/a" then some 204 else some 500) id
    [("stable", BranchEntry.entry (some "old") [])] [] (some "old") []
    [[("name", Prim.str "A.ipa"), ("mod_time", Prim.str "2024-01-01T00:00:00Z")]]
    (fingerprint id [[("name", Prim.str "A.ipa"),
                      ("mod_time", Prim.str "2024-01-01T00:00:00Z")]])
    [("name", Prim.str "A.ipa"), ("mod_time", Prim.str "2024-01-01T00:00:00Z")]
    true rfl rfl (by decide) rfl (by decide) (by decide)

/-- C1 counterexample: with two targets where repository a succeeds and
repository b fails, the first tick reports the partial result and stores
a under the new fingerprint — but the second tick with the identical
listing issues no dispatch calls at all, instead of attempting exactly
the previously-failed b as the claim requires. -/
theorem c1_counterexample :
    (check_branch [⟨"octo/a", "t1"⟩, ⟨"octo/b", "t2"⟩] "https://b" none "stable"
        ⟨200, some [[("name", Prim.str "A.ipa"),
                     ("mod_time", Prim.str "2024-01-01T00:00:00Z")]]⟩
        (fun t _ _ => if t.github_repo == "octo/a" then some 204 else some 500) true id
        [("stable", BranchEntry.entry (some "old") [])] []).result =
      some ⟨false, ["octo/a"], ["octo/b"],
        fingerprint id [[("name", Prim.str "A.ipa"),
                         ("mod_time", Prim.str "2024-01-01T00:00:00Z")]]⟩ ∧
    lookupAssoc (check_branch [⟨"octo/a", "t1"⟩, ⟨"octo/b", "t2"⟩] "https://b"
        none "stable"
        ⟨200, some [[("name", Prim.str "A.ipa"),
                     ("mod_time", Prim.str "2024-01-01T00:00:00Z")]]⟩
        (fun t _ _ => if t.github_repo == "octo/a" then some 204 else some 500) true id
        [("stable", BranchEntry.entry (some "old") [])] []).mem "stable" =
      some (BranchEntry.entry
        (some (fingerprint id [[("name", Prim.str "A.ipa"),
                                ("mod_time", Prim.str "2024-01-01T00:00:00Z")]]))
        [(fingerprint id [[("name", Prim.str "A.ipa"),
                           ("mod_time", Prim.str "2024-01-01T00:00:00Z")]],
          ["octo/a"])]) ∧
    (check_branch [⟨"octo/a", "t1"⟩, ⟨"octo/b", "t2"⟩] "https://b" none "stable"
        ⟨200, some [[("name", Prim.str "A.ipa"),
                     ("mod_time", Prim.str "2024-01-01T00:00:00Z")]]⟩
        (fun t _ _ => if t.github_repo == "octo/a" then some 204 else some 500) true id
        (check_branch [⟨"octo/a", "t1"⟩, ⟨"octo/b", "t2"⟩] "https://b" none
          "stable"
          ⟨200, some [[("name", Prim.str "A.ipa"),
                       ("mod_time", Prim.str "2024-01-01T00:00:00Z")]]⟩
          (fun t _ _ => if t.github_repo == "octo/a" then some 204 else some 500) true id
          [("stable", BranchEntry.entry (some "old") [])] []).mem
        (check_branch [⟨"octo/a", "t1"⟩, ⟨"octo/b", "t2"⟩] "https://b" none
          "stable"
          ⟨200, some [[("name", Prim.str "A.ipa"),
                       ("mod_time", Prim.str "2024-01-01T00:00:00Z")]]⟩
          (fun t _ _ => if t.github_repo == "octo/a" then some 204 else some 500) true id
          [("stable", BranchEntry.entry (some "old") [])] []).disk).calls =
      [] := by
  refine ⟨by decide, by decide, by decide⟩

theorem lookup_setAssoc_other {α : Type} (st : List (String × α)) (k b : String)
    (v : α) (hne : b ≠ k) :
    lookupAssoc (setAssoc st k v) b = lookupAssoc st b := by
  induction st with
  | nil =>
    unfold setAssoc lookupAssoc
    rw [List.find?_cons_of_neg _ (by simpa using fun hc => hne hc.symm)]
  | cons p rest ih =>
    obtain ⟨k2, v2⟩ := p
    unfold setAssoc
    by_cases hc : (k2 == k) = true
    · rw [if_pos hc]
      have hk2 : k2 = k := by simpa using hc
      unfold lookupAssoc
      rw [List.find?_cons_of_neg _ (by simpa using fun hb => hne hb.symm),
        List.find?_cons_of_neg _ (by simp [hk2]; exact fun hb => hne hb.symm)]
    · rw [if_neg hc]
      by_cases hb : (k2 == b) = true
      · unfold lookupAssoc
        rw [List.find?_cons_of_pos _ (by simpa using hb),
          List.find?_cons_of_pos _ (by simpa using hb)]
      · unfold lookupAssoc at ih ⊢
        rw [List.find?_cons_of_neg _ (by simpa using hb),
          List.find?_cons_of_neg _ (by simpa using hb)]
        exact ih

/-- C3 counterexample: the claim says a non-2xx HTTP response aborts the
channel's tick with no dispatch and unchanged state. The source never
inspects the status code: a 500 response whose body is a parsable
listing is processed normally — a dispatch POST is issued and the
channel state advances. -/
theorem c3_counterexample :
    (⟨500, some [[("name", Prim.str "A.ipa"),
                  ("mod_time", Prim.str "2024-01-01T00:00:00Z")]]⟩ :
        Response).status = 500 ∧
    (check_branch [⟨"octo/a", "t"⟩] "https://b" none "stable"
        ⟨500, some [[("name", Prim.str "A.ipa"),
                     ("mod_time", Prim.str "2024-01-01T00:00:00Z")]]⟩
        (fun _ _ _ => some 204) true id
        [("stable", BranchEntry.entry (some "old") [])] []).calls =
      ["octo/a"] ∧
    (check_branch [⟨"octo/a", "t"⟩] "https://b" none "stable"
        ⟨500, some [[("name", Prim.str "A.ipa"),
                     ("mod_time", Prim.str "2024-01-01T00:00:00Z")]]⟩
        (fun _ _ _ => some 204) true id
        [("stable", BranchEntry.entry (some "old") [])] []).mem ≠
      [("stable", BranchEntry.entry (some "old") [])] := by
  refine ⟨rfl, by decide, by decide⟩

/-- C3 (amended): only a body that cannot be parsed as JSON is a fetch
failure for the channel's tick — the tick is aborted with the stored
state untouched and no dispatch call, and processing proceeds to the
other channel unaffected. The HTTP status code is never examined: a
non-2xx response with a parsable body is processed normally. -/
theorem c3_fetch_failure_amended (targets : List Target) (base_url : String)
    (mock : Option String) (respS respT : Response)
    (net : Target → String → Bool → Option Nat) (saveOkS saveOkT : Bool)
    (h : String → String) (mem disk : DState)
    (hbody : respS.body = none) :
    (run_once targets base_url mock respS respT net saveOkS saveOkT h mem disk).1 =
      ⟨mem, disk, [], none, false⟩ ∧
    (run_once targets base_url mock respS respT net saveOkS saveOkT h mem disk).2 =
      check_branch targets base_url mock "testflight" respT net saveOkT h
        mem disk := by
  have h1 : check_branch targets base_url mock "stable" respS net saveOkS h
      mem disk = ⟨mem, disk, [], none, false⟩ := by
    unfold check_branch fetch_ipa_list
    rw [hbody]
  simp only [run_once]
  rw [h1]
  exact ⟨rfl, rfl⟩

/-- Witness for C3 (amended): a concrete unparsable stable response
leaves the state alone while the testflight channel is still checked. -/
theorem c3_fetch_failure_amended_witness :
    (run_once [⟨"octo/a", "t"⟩] "https://b" none ⟨502, none⟩
        ⟨200, some [[("name", Prim.str "B.ipa"),
                     ("mod_time", Prim.str "2024-01-01T00:00:00Z")]]⟩
        (fun _ _ _ => some 204) true true id
        [("stable", BranchEntry.entry (some "old") []),
         ("testflight", BranchEntry.entry none [])] []).1 =
      ⟨[("stable", BranchEntry.entry (some "old") []),
        ("testflight", BranchEntry.entry none [])], [], [], none, false⟩ ∧
    (run_once [⟨"octo/a", "t"⟩] "https://b" none ⟨502, none⟩
        ⟨200, some [[("name", Prim.str "B.ipa"),
                     ("mod_time", Prim.str "2024-01-01T00:00:00Z")]]⟩
        (fun _ _ _ => some 204) true true id
        [("stable", BranchEntry.entry (some "old") []),
         ("testflight", BranchEntry.entry none [])] []).2 =
      check_branch [⟨"octo/a", "t"⟩] "https://b" none "testflight"
        ⟨200, some [[("name", Prim.str "B.ipa"),
                     ("mod_time", Prim.str "2024-01-01T00:00:00Z")]]⟩
        (fun _ _ _ => some 204) true id
        [("stable", BranchEntry.entry (some "old") []),
         ("testflight", BranchEntry.entry none [])] [] :=
  c3_fetch_failure_amended [⟨"octo/a", "t"⟩] "https://b" none ⟨502, none⟩
    ⟨200, some [[("name", Prim.str "B.ipa"),
                 ("mod_time", Prim.str "2024-01-01T00:00:00Z")]]⟩
    (fun _ _ _ => some 204) true true id
    [("stable", BranchEntry.entry (some "old") []),
     ("testflight", BranchEntry.entry none [])] [] rfl

/-- C8 counterexample: the claim says a failed state-file write leaves
the channel's fingerprint and dispatch history as they were before the
tick so the change is redispatched later. In the source the in-memory
state is mutated before `save_hashes` raises: after a tick whose write
fails, the loop continues (`ok = false`, caught) and the on-disk state is
unchanged, but the in-memory state has already advanced, so the
identical listing on the next tick triggers no dispatch calls — the
change is not redispatched while the process lives. -/
theorem c8_counterexample :
    (check_branch [⟨"octo/a", "t"⟩] "https://b" none "stable"
        ⟨200, some [[("name", Prim.str "A.ipa"),
                     ("mod_time", Prim.str "2024-01-01T00:00:00Z")]]⟩
        (fun _ _ _ => some 204) false id
        [("stable", BranchEntry.entry (some "old") [])]
        [("stable", BranchEntry.entry (some "old") [])]).ok = false ∧
    (check_branch [⟨"octo/a", "t"⟩] "https://b" none "stable"
        ⟨200, some [[("name", Prim.str "A.ipa"),
                     ("mod_time", Prim.str "2024-01-01T00:00:00Z")]]⟩
        (fun _ _ _ => some 204) false id
        [("stable", BranchEntry.entry (some "old") [])]
        [("stable", BranchEntry.entry (some "old") [])]).disk =
      [("stable", BranchEntry.entry (some "old") [])] ∧
    (check_branch [⟨"octo/a", "t"⟩] "https://b" none "stable"
        ⟨200, some [[("name", Prim.str "A.ipa"),
                     ("mod_time", Prim.str "2024-01-01T00:00:00Z")]]⟩
        (fun _ _ _ => some 204) false id
        [("stable", BranchEntry.entry (some "old") [])]
        [("stable", BranchEntry.entry (some "old") [])]).mem ≠
      [("stable", BranchEntry.entry (some "old") [])] ∧
    (check_branch [⟨"octo/a", "t"⟩] "https://b" none "stable"
        ⟨200, some [[("name", Prim.str "A.ipa"),
                     ("mod_time", Prim.str "2024-01-01T00:00:00Z")]]⟩
        (fun _ _ _ => some 204) false id
        (check_branch [⟨"octo/a", "t"⟩] "https://b" none "stable"
          ⟨200, some [[("name", Prim.str "A.ipa"),
                       ("mod_time", Prim.str "2024-01-01T00:00:00Z")]]⟩
          (fun _ _ _ => some 204) false id
          [("stable", BranchEntry.entry (some "old") [])]
          [("stable", BranchEntry.entry (some "old") [])]).mem
        (check_branch [⟨"octo/a", "t"⟩] "https://b" none "stable"
          ⟨200, some [[("name", Prim.str "A.ipa"),
                       ("mod_time", Prim.str "2024-01-01T00:00:00Z")]]⟩
          (fun _ _ _ => some 204) false id
          [("stable", BranchEntry.entry (some "old") [])]
          [("stable", BranchEntry.entry (some "old") [])]).disk).calls = [] := by
  refine ⟨rfl, by decide, by decide, by decide⟩

/-- C8 (amended): if persisting the state file fails on a tick that had
at least one successful dispatch, the exception is caught so the polling
loop does not crash (`ok = false` only), and the on-disk state is left as
before the tick — but the in-memory state has already advanced to the
new fingerprint, so the change is not redispatched again until the
process restarts and reloads the on-disk state. -/
theorem c8_persist_failure_amended (targets : List Target) (base_url : String)
    (mock : Option String) (branch : String) (resp : Response)
    (net : Target → String → Bool → Option Nat)
    (h : String → String) (mem disk : DState) (stored : Option String)
    (disp : List (String × List String)) (data : Listing) (F : String)
    (latest : Item) (saveOk2 : Bool)
    (hentry : lookupAssoc mem branch = some (BranchEntry.entry stored disp))
    (hfetch : fetch_ipa_list mock branch resp h = some (data, F))
    (hchanged : stored ≠ some F)
    (hlatest : get_latest_version data = some latest)
    (hsucc : (dispatch_github_workflow targets net disp
      (mkUrl base_url branch latest) branch F).1.successful ≠ []) :
    (check_branch targets base_url mock branch resp net false h mem disk).mem =
      setAssoc mem branch (BranchEntry.entry (some F)
        (updateDisp disp F (dispatch_github_workflow targets net disp
          (mkUrl base_url branch latest) branch F).1.successful)) ∧
    (check_branch targets base_url mock branch resp net false h mem disk).disk =
      disk ∧
    (check_branch targets base_url mock branch resp net false h mem disk).ok =
      false ∧
    check_branch targets base_url mock branch resp net saveOk2 h
        (check_branch targets base_url mock branch resp net false h mem disk).mem
        (check_branch targets base_url mock branch resp net false h mem disk).disk =
      ⟨(check_branch targets base_url mock branch resp net false h mem disk).mem,
       (check_branch targets base_url mock branch resp net false h mem disk).disk,
       [], none, true⟩ := by
  rw [check_branch_changed targets base_url mock branch resp net false h mem disk
    stored disp data F latest hentry hfetch hchanged hlatest]
  have hni : ¬((dispatch_github_workflow targets net disp
      (mkUrl base_url branch latest) branch F).1.successful.isEmpty = true) := by
    intro hc
    exact hsucc (List.isEmpty_iff.mp hc)
  rw [if_neg hni, if_neg (by decide)]
  refine ⟨rfl, rfl, rfl, ?_⟩
  exact check_branch_unchanged targets base_url mock branch resp net saveOk2 h
    _ _ (some F) _ data F (lookup_setAssoc_self mem branch _) hfetch rfl

/-- Witness for C8 (amended) at a concrete failed-write tick. -/
theorem c8_persist_failure_amended_witness :
    (check_branch [⟨"octo/a", "t"⟩] "https://b" none "stable"
        ⟨200, some [[("name", Prim.str "A.ipa"),
                     ("mod_time", Prim.str "2024-01-01T00:00:00Z")]]⟩
        (fun _ _ _ => some 204) false id
        [("stable", BranchEntry.entry (some "old") [])]
        [("stable", BranchEntry.entry (some "old") [])]).mem =
      setAssoc [("stable", BranchEntry.entry (some "old") [])] "stable"
        (BranchEntry.entry
          (some (fingerprint id [[("name", Prim.str "A.ipa"),
                                  ("mod_time", Prim.str "2024-01-01T00:00:00Z")]]))
          (updateDisp []
            (fingerprint id [[("name", Prim.str "A.ipa"),
                              ("mod_time", Prim.str "2024-01-01T00:00:00Z")]])
            (dispatch_github_workflow [⟨"octo/a", "t"⟩] (fun _ _ _ => some 204)
              []
              (mkUrl "https://b" "stable"
                [("name", Prim.str "A.ipa"),
                 ("mod_time", Prim.str "2024-01-01T00:00:00Z")]) "stable"
              (fingerprint id [[("name", Prim.str "A.ipa"),
                                ("mod_time",
                                 Prim.str "2024-01-01T00:00:00Z")]])).1.successful)) ∧
    (check_branch [⟨"octo/a", "t"⟩] "https://b" none "stable"
        ⟨200, some [[("name", Prim.str "A.ipa"),
                     ("mod_time", Prim.str "2024-01-01T00:00:00Z")]]⟩
        (fun _ _ _ => some 204) false id
        [("stable", BranchEntry.entry (some "old") [])]
        [("stable", BranchEntry.entry (some "old") [])]).disk =
      [("stable", BranchEntry.entry (some "old") [])] ∧
    (check_branch [⟨"octo/a", "t"⟩] "https://b" none "stable"
        ⟨200, some [[("name", Prim.str "A.ipa"),
                     ("mod_time", Prim.str "2024-01-01T00:00:00Z")]]⟩
        (fun _ _ _ => some 204) false id
        [("stable", BranchEntry.entry (some "old") [])]
        [("stable", BranchEntry.entry (some "old") [])]).ok = false ∧
    check_branch [⟨"octo/a", "t"⟩] "https://b" none "stable"
        ⟨200, some [[("name", Prim.str "A.ipa"),
                     ("mod_time", Prim.str "2024-01-01T00:00:00Z")]]⟩
        (fun _ _ _ => some 204) true id
        (check_branch [⟨"octo/a", "t"⟩] "https://b" none "stable"
          ⟨200, some [[("name", Prim.str "A.ipa"),
                       ("mod_time", Prim.str "2024-01-01T00:00:00Z")]]⟩
          (fun _ _ _ => some 204) false id
          [("stable", BranchEntry.entry (some "old") [])]
          [("stable", BranchEntry.entry (some "old") [])]).mem
        (check_branch [⟨"octo/a", "t"⟩] "https://b" none "stable"
          ⟨200, some [[("name", Prim.str "A.ipa"),
                       ("mod_time", Prim.str "2024-01-01T00:00:00Z")]]⟩
          (fun _ _ _ => some 204) false id
          [("stable", BranchEntry.entry (some "old") [])]
          [("stable", BranchEntry.entry (some "old") [])]).disk =
      ⟨(check_branch [⟨"octo/a", "t"⟩] "https://b" none "stable"
          ⟨200, some [[("name", Prim.str "A.ipa"),
                       ("mod_time", Prim.str "2024-01-01T00:00:00Z")]]⟩
          (fun _ _ _ => some 204) false id
          [("stable", BranchEntry.entry (some "old") [])]
          [("stable", BranchEntry.entry (some "old") [])]).mem,
       (check_branch [⟨"octo/a", "t"⟩] "https://b" none "stable"
          ⟨200, some [[("name", Prim.str "A.ipa"),
                       ("mod_time", Prim.str "2024-01-01T00:00:00Z")]]⟩
          (fun _ _ _ => some 204) false id
          [("stable", BranchEntry.entry (some "old") [])]
          [("stable", BranchEntry.entry (some "old") [])]).disk,
       [], none, true⟩ :=
  c8_persist_failure_amended [⟨"octo/a", "t"⟩] "https://b" none "stable"
    ⟨200, some [[("name", Prim.str "A.ipa"),
                 ("mod_time", Prim.str "2024-01-01T00:00:00Z")]]⟩
    (fun _ _ _ => some 204) id
    [("stable", BranchEntry.entry (some "old") [])]
    [("stable", BranchEntry.entry (some "old") [])] (some "old") []
    [[("name", Prim.str "A.ipa"), ("mod_time", Prim.str "2024-01-01T00:00:00Z")]]
    (fingerprint id [[("name", Prim.str "A.ipa"),
                      ("mod_time", Prim.str "2024-01-01T00:00:00Z")]])
    [("name", Prim.str "A.ipa"), ("mod_time", Prim.str "2024-01-01T00:00:00Z")]
    true rfl rfl (by decide) rfl (by decide)

/-- C9: evaluation of the code at the failing input. On a state file in
the legacy shape (a channel entry that is a plain hash string), the
claim — and the repository's own test `mock_test.py`, which installs
exactly this shape and asserts a dispatch is posted — expects the entry
to be normalized and the channel to operate normally. Instead,
`branch_data.get("hash")` raises `AttributeError` on the string entry,
the `except` block swallows it and `check_branch` returns `False`: the
entry is never rewritten, no dispatch is issued, and every subsequent
tick fails identically (the `isinstance` normalization guard at line 206
sits after the raise and is unreachable). -/
theorem c9_legacy_state_bug :
    check_branch [⟨"octo/a", "t"⟩] "https://b" none "stable"
        ⟨200, some [[("name", Prim.str "A.ipa"),
                     ("mod_time", Prim.str "2024-01-01T00:00:00Z")]]⟩
        (fun _ _ _ => some 204) true id
        [("stable", BranchEntry.legacy "old_hash_stable"),
         ("testflight", BranchEntry.legacy "old_hash_testflight")] [] =
      ⟨[("stable", BranchEntry.legacy "old_hash_stable"),
        ("testflight", BranchEntry.legacy "old_hash_testflight")],
       [], [], none, false⟩ := by
  decide

/-- C10: the `mock_hash` testing override affects only the stable
channel. With a (non-empty, hence truthy) override set, a fetch for
"stable" returns the override as the fingerprint while a fetch for
"testflight" returns the digest computed from the payload, and loading
an existing state file replaces only the "stable" entry with the
override, leaving every other channel's entry untouched. -/
theorem c10_mock_scope (m : String) (hm : m ≠ "") (resp : Response)
    (data : Listing) (hbody : resp.body = some data) (h : String → String)
    (st : DState) :
    fetch_ipa_list (some m) "stable" resp h = some (data, m) ∧
    fetch_ipa_list (some m) "testflight" resp h =
      some (data, fingerprint h data) ∧
    load_hashes (some m) (some st) =
      setAssoc st "stable" (BranchEntry.entry (some m) []) ∧
    (∀ b, b ≠ "stable" →
      lookupAssoc (load_hashes (some m) (some st)) b = lookupAssoc st b) := by
  have hma : mockActive (some m) = true := by
    have hne : (m == "") = false := by
      cases hval : (m == "") with
      | false => rfl
      | true => exact absurd (by simpa using hval) hm
    simp only [mockActive, hne]
    rfl
  refine ⟨?_, ?_, ?_, ?_⟩
  · simp [fetch_ipa_list, hbody, hma]
  · simp [fetch_ipa_list, hbody, hma]
  · simp [load_hashes, hma]
  · intro b hb
    simp only [load_hashes, hma, if_pos]
    exact lookup_setAssoc_other st "stable" b _ hb

/-- Witness for C10 at a concrete override, response and state file. -/
theorem c10_mock_scope_witness :
    fetch_ipa_list (some "mockF") "stable"
        ⟨200, some [[("name", Prim.str "A.ipa"),
                     ("mod_time", Prim.str "2024-01-01T00:00:00Z")]]⟩ id =
      some ([[("name", Prim.str "A.ipa"),
              ("mod_time", Prim.str "2024-01-01T00:00:00Z")]], "mockF") ∧
    fetch_ipa_list (some "mockF") "testflight"
        ⟨200, some [[("name", Prim.str "A.ipa"),
                     ("mod_time", Prim.str "2024-01-01T00:00:00Z")]]⟩ id =
      some ([[("name", Prim.str "A.ipa"),
              ("mod_time", Prim.str "2024-01-01T00:00:00Z")]],
            fingerprint id [[("name", Prim.str "A.ipa"),
                             ("mod_time", Prim.str "2024-01-01T00:00:00Z")]]) ∧
    load_hashes (some "mockF")
        (some [("stable", BranchEntry.entry (some "old") []),
               ("testflight", BranchEntry.entry (some "tfold") [])]) =
      setAssoc [("stable", BranchEntry.entry (some "old") []),
                ("testflight", BranchEntry.entry (some "tfold") [])] "stable"
        (BranchEntry.entry (some "mockF") []) ∧
    (∀ b, b ≠ "stable" →
      lookupAssoc (load_hashes (some "mockF")
        (some [("stable", BranchEntry.entry (some "old") []),
               ("testflight", BranchEntry.entry (some "tfold") [])])) b =
      lookupAssoc [("stable", BranchEntry.entry (some "old") []),
                   ("testflight", BranchEntry.entry (some "tfold") [])] b) :=
  c10_mock_scope "mockF" (by decide)
    ⟨200, some [[("name", Prim.str "A.ipa"),
                 ("mod_time", Prim.str "2024-01-01T00:00:00Z")]]⟩
    [[("name", Prim.str "A.ipa"), ("mod_time", Prim.str "2024-01-01T00:00:00Z")]]
    rfl id
    [("stable", BranchEntry.entry (some "old") []),
     ("testflight", BranchEntry.entry (some "tfold") [])]
